import Mathlib

/-!
# hallucinator ECS core: a shallow embedding and its properties

The Go sources embedded here are `pkg/ecs/entity.go`, `pkg/ecs/system.go`,
`ecs/components.go`, `ecs/world.go` and, for `Draw` and `Line`,
`engine/graphics.go`.

Modelling conventions.

* Go `int` values that the code lets go negative (`Entity`, `living`, `size`,
  slot indices) are `Int`.  The component bit counter `next` starts at `0` and
  is only ever incremented, so it and the bit indices are `Nat` (the source
  converts them with `uint(...)` before use).
* A Go `map[K]V` is a function `K → Option V`; `none` is an absent key.  A read
  of an absent key yields the zero value of `V`, written explicitly at each
  read site (`getD 0` for `int`, `none` for interfaces and pointers).
* A run-time panic (index out of range, nil dereference) is the result `none`
  of an operation returning `Option`.
* `*bitset.BitSet` (library `github.com/willf/bitset`) is `Option BitSet`,
  `none` being the nil pointer; a bit set is the finite set of its set bits.
  Every bit set stored by the world is reachable from one owner only, so the
  in-place `Set` is modelled by a value update.
-/

namespace ecs

/-! ## Bit sets (external library `willf/bitset`) -/

/-- A `bitset.BitSet`, as the finite set of the indices of its set bits. -/
abbrev BitSet := Finset Nat

/-- The Go expression `new(bitset.BitSet)`: no bit is set. -/
def BitSet.new : BitSet := ∅

/-- The method `(*BitSet).Set(i)`: bit `i` is set, the others are kept. -/
def BitSet.Set (b : BitSet) (i : Nat) : BitSet := insert i b

/-- The method `(*BitSet).IsSuperSet(other)`: every bit set in `other` is set in `b`. -/
def BitSet.IsSuperSet (b other : BitSet) : Bool := decide (other ⊆ b)

/-! ## `pkg/ecs/entity.go` -/

/-- The constant `MaxEntities`. -/
def MaxEntities : Nat := 10000

/-- The type `Entity` (`type Entity int`). -/
abbrev Entity := Int

/-- The struct `entityManager`.  The array `signatures [MaxEntities]*bitset.BitSet`
is a function on indices; the bounds check is made where the array is indexed. -/
structure entityManager where
  available : List Entity
  living : Int
  signatures : Entity → Option BitSet

/-- Bounds check of an index into `signatures [MaxEntities]*bitset.BitSet`. -/
def inRange (entity : Entity) : Bool := decide (0 ≤ entity) && decide (entity < (MaxEntities : Int))

/-- The function `CreateEntityManager`: the pool holds `0, 1, ..., MaxEntities-1` in
this order, nobody lives, every signature is nil. -/
def CreateEntityManager : entityManager :=
  { available := (List.range MaxEntities).map Int.ofNat
    living := 0
    signatures := fun _ => none }

/-- The method `entityManager.Living`. -/
def entityManager.Living (manager : entityManager) : Int := manager.living

/-- The method `entityManager.Create`: `available[0]` panics on an empty pool. -/
def entityManager.Create (manager : entityManager) : Option (entityManager × Entity) :=
  match manager.available with
  | [] => none
  | next :: rest =>
    some ({ manager with available := rest, living := manager.living + 1 }, next)

/-- The method `entityManager.Destroy`: the handle is appended to the pool, its
signature is reset to nil (a panic when the index is out of range) and the living
count is decremented. -/
def entityManager.Destroy (manager : entityManager) (entity : Entity) : Option entityManager :=
  if inRange entity then
    some { available := manager.available ++ [entity]
           living := manager.living - 1
           signatures := fun e => if e = entity then none else manager.signatures e }
  else none

/-- The method `entityManager.Sign`. -/
def entityManager.Sign (manager : entityManager) (entity : Entity) (signature : Option BitSet) :
    Option entityManager :=
  if inRange entity then
    some { manager with signatures := fun e => if e = entity then signature else manager.signatures e }
  else none

/-- The method `entityManager.Read`; the outer `Option` is the bounds check, the
inner one the pointer. -/
def entityManager.Read (manager : entityManager) (entity : Entity) : Option (Option BitSet) :=
  if inRange entity then some (manager.signatures entity) else none

/-! ## `ecs/components.go` -/

/-- The constant `MaxComponents` (declared by the source, checked nowhere in it). -/
def MaxComponents : Nat := 10

/-- A non-nil value of the interface `Component`: its `Name()` and its payload. -/
structure Component where
  Name : String
  data : Int
deriving DecidableEq

/-- The Go statement `m[k] = v` on a map. -/
def mapSet {K V : Type} [DecidableEq K] (m : K → Option V) (k : K) (v : V) : K → Option V :=
  fun x => if x = k then some v else m x

/-- The Go statement `delete(m, k)` on a map. -/
def mapDelete {K V : Type} [DecidableEq K] (m : K → Option V) (k : K) : K → Option V :=
  fun x => if x = k then none else m x

/-- The struct `componentEntityMap`. -/
structure componentEntityMap where
  entityComponents : Int → Option Component
  entityIndexMap : Entity → Option Int
  indexEntityMap : Int → Option Entity
  size : Int

/-- The store built by `componentManager.Register`: three empty maps, size zero. -/
def componentEntityMap.empty : componentEntityMap :=
  { entityComponents := fun _ => none
    entityIndexMap := fun _ => none
    indexEntityMap := fun _ => none
    size := 0 }

/-- The method `componentEntityMap.insert`. -/
def componentEntityMap.insert (pack : componentEntityMap) (entity : Entity)
    (component : Component) : componentEntityMap :=
  let newIndex := pack.size
  { entityIndexMap := mapSet pack.entityIndexMap entity newIndex
    indexEntityMap := mapSet pack.indexEntityMap newIndex entity
    entityComponents := mapSet pack.entityComponents newIndex component
    size := pack.size + 1 }

/-- The method `componentEntityMap.remove`: the slot `entityIndexMap[entity]` (slot `0`
when the entity has no entry) is deleted from `entityComponents` and the size is
decremented; the two index maps are not touched. -/
def componentEntityMap.remove (pack : componentEntityMap) (entity : Entity) : componentEntityMap :=
  { pack with
    entityComponents := mapDelete pack.entityComponents ((pack.entityIndexMap entity).getD 0)
    size := pack.size - 1 }

/-- The method `componentEntityMap.read`; `none` is the nil `Component`. -/
def componentEntityMap.read (pack : componentEntityMap) (entity : Entity) : Option Component :=
  pack.entityComponents ((pack.entityIndexMap entity).getD 0)

/-- The struct `componentManager`. -/
structure componentManager where
  next : Nat
  components : String → Option componentEntityMap
  signatures : String → Option Nat

/-- The function `CreateComponentManager`. -/
def CreateComponentManager : componentManager :=
  { next := 0
    components := fun _ => none
    signatures := fun _ => none }

/-- The method `componentManager.Destroy`: `remove(entity)` on every store.  The stores
are independent of each other, so the iteration order of the Go map does not matter. -/
def componentManager.Destroy (manager : componentManager) (entity : Entity) : componentManager :=
  { manager with components := fun name => (manager.components name).map (fun c => c.remove entity) }

/-- The method `componentManager.Attach`; an unregistered name is a nil store, and
`insert` on it panics. -/
def componentManager.Attach (manager : componentManager) (entity : Entity) (name : String)
    (component : Component) : Option componentManager :=
  match manager.components name with
  | none => none
  | some pack =>
    some { manager with components := mapSet manager.components name (pack.insert entity component) }

/-- The method `componentManager.Read`; the outer `Option` is the panic of `read` on
the nil store of an unregistered name, the inner one the nil `Component`. -/
def componentManager.Read (manager : componentManager) (entity : Entity) (name : String) :
    Option (Option Component) :=
  match manager.components name with
  | none => none
  | some pack => some (pack.read entity)

/-- The method `componentManager.Register`. -/
def componentManager.Register (manager : componentManager) (name : String) : componentManager :=
  { signatures := mapSet manager.signatures name manager.next
    components := mapSet manager.components name componentEntityMap.empty
    next := manager.next + 1 }

/-- The method `componentManager.Remove`: its body is empty. -/
def componentManager.Remove (manager : componentManager) (_entity : Entity) (_name : String) :
    componentManager :=
  manager

/-- The method `componentManager.Signature`: the zero value `0` for an absent name. -/
def componentManager.Signature (manager : componentManager) (name : String) : Nat :=
  (manager.signatures name).getD 0

/-- The method `componentManager.Sign`: a new bit set with the bit of each name set. -/
def componentManager.Sign (manager : componentManager) (names : List String) : BitSet :=
  names.foldl (fun signature name => signature.Set (manager.Signature name)) BitSet.new

/-! ## `pkg/ecs/system.go` -/

/-- The struct `SystemAccess`.  Its field `world` is a back reference used only to read
components; it carries no state of its own and is left out. -/
structure SystemAccess where
  entities : List Entity

/-- The method `SystemAccess.Subscribed`. -/
def SystemAccess.Subscribed (system : SystemAccess) (entity : Entity) : Bool :=
  system.entities.any (fun subscription => decide (entity = subscription))

/-- The method `SystemAccess.Subscribe`. -/
def SystemAccess.Subscribe (system : SystemAccess) (entity : Entity) : SystemAccess :=
  { entities := system.entities ++ [entity] }

/-- The method `SystemAccess.Unsubscribe`: its body is the comment `TODO`. -/
def SystemAccess.Unsubscribe (system : SystemAccess) (_entity : Entity) : SystemAccess :=
  system

/-- The method `SystemAccess.Entities`. -/
def SystemAccess.Entities (system : SystemAccess) : List Entity := system.entities

/-- A value of the interface `System`: a struct that embeds `SystemAccess` (as every
system of the repository does) and answers `Name()`. -/
structure System extends SystemAccess where
  Name : String

/-- A system on which nothing was called yet, as made by the expression `new(T)`. -/
def System.fresh (name : String) : System := { entities := [], Name := name }

/-- The struct `systemManager`. -/
structure systemManager where
  signatures : String → Option BitSet
  systems : String → Option System

/-- The function `CreateSystemManager`. -/
def CreateSystemManager : systemManager :=
  { signatures := fun _ => none
    systems := fun _ => none }

/-- The method `systemManager.Register`. -/
def systemManager.Register (manager : systemManager) (name : String) (system : System) :
    systemManager :=
  { manager with systems := mapSet manager.systems name system }

/-- The method `systemManager.Read`. -/
def systemManager.Read (manager : systemManager) (name : String) : Option System :=
  manager.systems name

/-- The method `systemManager.Destroy`: its body is the comment `TODO`. -/
def systemManager.Destroy (manager : systemManager) (_entity : Entity) : systemManager :=
  manager

/-- The method `systemManager.Use`; the signature is a pointer, so it may be nil. -/
def systemManager.Use (manager : systemManager) (name : String) (signature : Option BitSet) :
    systemManager :=
  { manager with signatures := fun x => if x = name then signature else manager.signatures x }

/-- The body of the loop of `systemManager.Change` for the system registered as `name`. -/
def systemManager.changeOne (manager : systemManager) (entity : Entity) (signature : BitSet)
    (name : String) (system : System) : System :=
  match manager.signatures name with
  | some systemSignature =>
    if !system.Subscribed entity && signature.IsSuperSet systemSignature then
      { system with toSystemAccess := system.toSystemAccess.Subscribe entity }
    else
      { system with toSystemAccess := system.toSystemAccess.Unsubscribe entity }
  | none => { system with toSystemAccess := system.toSystemAccess.Unsubscribe entity }

/-- The method `systemManager.Change`, for a non-nil `signature` (the world never
passes nil).  Each name holds a system object of its own, so the iterations are
independent and the iteration order of the Go map does not matter. -/
def systemManager.Change (manager : systemManager) (entity : Entity) (signature : BitSet) :
    systemManager :=
  { manager with
    systems := fun name => (manager.systems name).map (manager.changeOne entity signature name) }

/-! ## `ecs/world.go` -/

/-- The struct `world`. -/
structure world where
  components : componentManager
  entities : entityManager
  systems : systemManager

/-- The function `CreateWorld`. -/
def CreateWorld : world :=
  { components := CreateComponentManager
    entities := CreateEntityManager
    systems := CreateSystemManager }

/-- The method `world.Component`. -/
def world.Component (w : world) (entity : Entity) (name : String) : Option (Option Component) :=
  w.components.Read entity name

/-- The method `world.Destroy`. -/
def world.Destroy (w : world) (entity : Entity) : Option world :=
  match w.entities.Destroy entity with
  | none => none
  | some entities =>
    some { entities := entities
           systems := w.systems.Destroy entity
           components := w.components.Destroy entity }

/-- The method `world.Entity`. -/
def world.Entity (w : world) (entity : Entity) : Option (Option BitSet) :=
  w.entities.Read entity

/-- The method `world.Entities`. -/
def world.Entities (w : world) : Int := w.entities.Living

/-- The method `world.CreateEntity`. -/
def world.CreateEntity (w : world) : Option (world × ecs.Entity) :=
  match w.entities.Create with
  | none => none
  | some (entities, entity) => some ({ w with entities := entities }, entity)

/-- The method `world.RegisterComponent`. -/
def world.RegisterComponent (w : world) (name : String) : world :=
  { w with components := w.components.Register name }

/-- The method `world.RegisterSystem`; `system.Updates(world)` only stores the back
reference. -/
def world.RegisterSystem (w : world) (system : System) (components : List String) : world :=
  let name := system.Name
  let systems := w.systems.Register name system
  if components.length > 0 then
    { w with systems := systems.Use name (some (w.components.Sign components)) }
  else
    { w with systems := systems }

/-- The method `world.SignEntity`. -/
def world.SignEntity (w : world) (entity : ecs.Entity) (components : List String) : Option world :=
  match w.entities.Sign entity (some (w.components.Sign components)) with
  | none => none
  | some entities => some { w with entities := entities }

/-- The method `world.AttachComponent`, for a non-nil `component` (on a nil one
`component.Name()` panics before anything is changed). -/
def world.AttachComponent (w : world) (entity : ecs.Entity) (component : ecs.Component) : Option world :=
  let name := component.Name
  match w.components.Attach entity name component with
  | none => none
  | some components =>
    match w.entities.Read entity with
    | none => none
    | some read =>
      let signature := (read.getD BitSet.new).Set (components.Signature name)
      match w.entities.Sign entity (some signature) with
      | none => none
      | some entities =>
        some { components := components
               entities := entities
               systems := w.systems.Change entity signature }

/-- The method `world.System`. -/
def world.System (w : world) (name : String) : Option System := w.systems.Read name

/-! ## Call sequences

A sequence of calls is run from left to right; a panic ends the run with `none`.
Next to the state the run keeps a ghost list `alive`: the handles returned by `Create`
and not passed to `Destroy` since, most recent first, one entry per `Create`. -/

/-- A call of the interface `EntityManager` that changes the pool. -/
inductive EntityCall where
  | Create
  | Destroy (entity : Entity)
deriving DecidableEq

/-- One call on an entity manager, with the ghost list of living handles. -/
def entityManager.call (manager : entityManager) (alive : List Entity) :
    EntityCall → Option (entityManager × List Entity)
  | .Create =>
    match manager.Create with
    | none => none
    | some (manager', entity) => some (manager', entity :: alive)
  | .Destroy entity =>
    match manager.Destroy entity with
    | none => none
    | some manager' => some (manager', alive.filter (fun e => decide (e ≠ entity)))

/-- A sequence of calls on an entity manager. -/
def entityManager.calls (manager : entityManager) (alive : List Entity) :
    List EntityCall → Option (entityManager × List Entity)
  | [] => some (manager, alive)
  | c :: cs =>
    match manager.call alive c with
    | none => none
    | some (manager', alive') => manager'.calls alive' cs

/-- The discipline that every `Destroy` of the sequence is given a handle that is
alive when the call is made. -/
def entityManager.destroysLiving (manager : entityManager) (alive : List Entity) :
    List EntityCall → Bool
  | [] => true
  | c :: cs =>
    (match c with
      | .Create => true
      | .Destroy entity => decide (entity ∈ alive)) &&
    (match manager.call alive c with
      | none => true
      | some (manager', alive') => manager'.destroysLiving alive' cs)

/-- The pool and the living handles are duplicate free and share no handle. -/
def PoolDisjoint (m : entityManager) (alive : List Entity) : Prop :=
  m.available.Nodup ∧ alive.Nodup ∧ ∀ e, e ∈ m.available → e ∉ alive

/-- A call on a component store. -/
inductive StoreCall where
  | insert (entity : Entity) (component : Component)
  | remove (entity : Entity)
deriving DecidableEq

/-- One call on a component store. -/
def componentEntityMap.call (pack : componentEntityMap) : StoreCall → componentEntityMap
  | .insert entity component => pack.insert entity component
  | .remove entity => pack.remove entity

/-- A sequence of calls on a component store, run from left to right. -/
def componentEntityMap.calls (pack : componentEntityMap) (cs : List StoreCall) :
    componentEntityMap :=
  cs.foldl componentEntityMap.call pack

/-- Slot `i` of the store is occupied: `i` is a key of `entityComponents`. -/
def componentEntityMap.occupied (pack : componentEntityMap) (i : Int) : Bool :=
  (pack.entityComponents i).isSome

/-- The sparse-set invariant of a component store: the occupied slots are exactly
`[0, size)`; no entity owns two occupied slots; every occupied slot has an owner; and
on the occupied slots `indexEntityMap` and `entityIndexMap` are inverse to each other. -/
def componentEntityMap.SparseSet (pack : componentEntityMap) : Prop :=
  (∀ i, pack.occupied i = true ↔ 0 ≤ i ∧ i < pack.size) ∧
  (∀ i j e, pack.occupied i = true → pack.occupied j = true →
    pack.indexEntityMap i = some e → pack.indexEntityMap j = some e → i = j) ∧
  (∀ i, pack.occupied i = true → ∃ e, pack.indexEntityMap i = some e) ∧
  (∀ i e, pack.occupied i = true →
    (pack.indexEntityMap i = some e ↔ pack.entityIndexMap e = some i))

/-- The invariant kept by inserting entities that the store does not hold yet; `held`
lists the entities inserted so far. -/
def componentEntityMap.Dense (pack : componentEntityMap) (held : List Entity) : Prop :=
  0 ≤ pack.size ∧
  (∀ i, pack.occupied i = true ↔ 0 ≤ i ∧ i < pack.size) ∧
  (∀ e i, pack.entityIndexMap e = some i →
    (0 ≤ i ∧ i < pack.size) ∧ pack.indexEntityMap i = some e) ∧
  (∀ i, 0 ≤ i → i < pack.size →
    ∃ e, pack.indexEntityMap i = some e ∧ pack.entityIndexMap e = some i) ∧
  (∀ e, (pack.entityIndexMap e).isSome = true ↔ e ∈ held)

/-- A call of the interface `World` that changes the world. -/
inductive WorldCall where
  | RegisterComponent (name : String)
  | RegisterSystem (system : System) (components : List String)
  | CreateEntity
  | AttachComponent (entity : Entity) (component : Component)
  | SignEntity (entity : Entity) (components : List String)
  | Destroy (entity : Entity)

/-- One call on a world, with the ghost list of living handles. -/
def world.call (w : world) (alive : List ecs.Entity) : WorldCall → Option (world × List ecs.Entity)
  | .RegisterComponent name => some (w.RegisterComponent name, alive)
  | .RegisterSystem system components => some (w.RegisterSystem system components, alive)
  | .CreateEntity =>
    match w.CreateEntity with
    | none => none
    | some (w', entity) => some (w', entity :: alive)
  | .AttachComponent entity component =>
    match w.AttachComponent entity component with
    | none => none
    | some w' => some (w', alive)
  | .SignEntity entity components =>
    match w.SignEntity entity components with
    | none => none
    | some w' => some (w', alive)
  | .Destroy entity =>
    match w.Destroy entity with
    | none => none
    | some w' => some (w', alive.filter (fun e => decide (e ≠ entity)))

/-- A sequence of calls on a world. -/
def world.calls (w : world) (alive : List ecs.Entity) :
    List WorldCall → Option (world × List ecs.Entity)
  | [] => some (w, alive)
  | c :: cs =>
    match w.call alive c with
    | none => none
    | some (w', alive') => w'.calls alive' cs

/-- The subscriber list `SystemAccess.Entities` of the system registered as `name`. -/
def world.Subscribers (w : world) (name : String) : Option (List ecs.Entity) :=
  (w.System name).map (fun system => system.Entities)

/-- The signature of an entity with the nil pointer read as the empty bit set, as
`world.AttachComponent` reads it. -/
def world.signatureOf (w : world) (entity : ecs.Entity) : BitSet :=
  (w.entities.signatures entity).getD BitSet.new

/-- The call registers a component type, or a system that has no subscriber yet. -/
def WorldCall.isRegistration : WorldCall → Bool
  | .RegisterComponent _ => true
  | .RegisterSystem system _ => system.entities.isEmpty
  | _ => false

/-- The call is `CreateEntity` or `AttachComponent`. -/
def WorldCall.isPopulation : WorldCall → Bool
  | .CreateEntity => true
  | .AttachComponent _ _ => true
  | _ => false

/-- The discipline that every `AttachComponent` of the sequence is given an entity that
is alive when the call is made. -/
def world.attachesLiving (w : world) (alive : List ecs.Entity) : List WorldCall → Bool
  | [] => true
  | c :: cs =>
    (match c with
      | .AttachComponent entity _ => decide (entity ∈ alive)
      | _ => true) &&
    (match w.call alive c with
      | none => true
      | some (w', alive') => w'.attachesLiving alive' cs)

/-- The subscription invariant of C2: for every registered system with a non-empty
required signature, an entity is in the subscriber list exactly when it is alive and its
current signature is a superset of the required one. -/
def world.SubscriptionsExact (w : world) (alive : List ecs.Entity) : Prop :=
  ∀ name system required,
    w.systems.systems name = some system →
    w.systems.signatures name = some required → required.Nonempty →
    ∀ e, e ∈ system.Entities ↔
      (e ∈ alive ∧
        ∃ signature, w.Entity e = some (some signature) ∧
          signature.IsSuperSet required = true)

/-- Every system with a non-empty required signature lists, once each, exactly the
entities whose stored signature contains the required one. -/
def world.Matched (w : world) : Prop :=
  ∀ name system required,
    w.systems.systems name = some system →
    w.systems.signatures name = some required → required.Nonempty →
    system.entities.Nodup ∧ ∀ e, e ∈ system.entities ↔ required ⊆ w.signatureOf e

/-- Only living handles inside the bounds of the signature array carry a signature. -/
def world.SignedAlive (w : world) (alive : List ecs.Entity) : Prop :=
  ∀ e, w.entities.signatures e ≠ none → e ∈ alive ∧ inRange e = true

/-- No entity carries a signature and no system has a subscriber. -/
def world.Blank (w : world) : Prop :=
  (∀ e, w.entities.signatures e = none) ∧
  (∀ name system, w.systems.systems name = some system → system.entities = [])

/-- The bit indices handed out so far are below the counter, and no two names share a
bit index. -/
def componentManager.BitsDistinct (manager : componentManager) : Prop :=
  (∀ name i, manager.signatures name = some i → i < manager.next) ∧
  (∀ name name' i, manager.signatures name = some i → manager.signatures name' = some i →
    name = name')

/-- A sequence of `Register` calls, one for each name of the list, from left to right. -/
def componentManager.RegisterAll (manager : componentManager) (names : List String) :
    componentManager :=
  names.foldl componentManager.Register manager

/-- Every handle in the pool and every living handle is inside the bounds of the
signature array. -/
def world.HandlesInRange (w : world) (alive : List ecs.Entity) : Prop :=
  (∀ e ∈ w.entities.available, inRange e = true) ∧ (∀ e ∈ alive, inRange e = true)

/-- The store holds `component` for `entity`: the entity's index entry points to a slot
below the size in which the component is stored. -/
def componentEntityMap.Holds (pack : componentEntityMap) (entity : Entity)
    (component : Component) : Prop :=
  ∃ i, pack.entityIndexMap entity = some i ∧ pack.entityComponents i = some component ∧
    i < pack.size

/-- The call is `CreateEntity`, or an `AttachComponent` for another entity than `entity`
or for another component type than `name`. -/
def WorldCall.attachesElsewhere (entity : Entity) (name : String) : WorldCall → Bool
  | .CreateEntity => true
  | .AttachComponent e c => decide (e ≠ entity) || decide (c.Name ≠ name)
  | _ => false

/-- The call does not give the name `s` a required signature: it is not a
`RegisterSystem` for a system named `s` with component names. -/
def WorldCall.leavesUnsigned (s : String) : WorldCall → Bool
  | .RegisterSystem system components => decide (system.Name ≠ s) || components.isEmpty
  | _ => true

/-- A sequence of `Change` calls, each with its entity and signature, from left to
right. -/
def systemManager.ChangeAll (manager : systemManager) (changes : List (Entity × BitSet)) :
    systemManager :=
  changes.foldl (fun m change => m.Change change.1 change.2) manager

/-- The discipline of C26: `Create` is only called on a non-empty pool and `Destroy` only
with handles inside `[0, MaxEntities)`. -/
def entityManager.withinLimits (manager : entityManager) (alive : List Entity) :
    List EntityCall → Bool
  | [] => true
  | c :: cs =>
    (match c with
      | .Create => !manager.available.isEmpty
      | .Destroy entity => inRange entity) &&
    (match manager.call alive c with
      | none => true
      | some (manager', alive') => manager'.withinLimits alive' cs)

/-! ## `engine/graphics.go`

The package variables `windowWidth`, `pixels` and `strokeColour` are arguments of the
functions that read them, and the new `pixels` is the result of those that write it.  A
byte is a `Nat`.  `int32` and `int` (64 bits) arithmetic wraps around, written out with
`wrapInt32` and `wrapInt64`. -/

/-- A value as an `int32`: the representative of its class modulo `2^32` in
`[-2^31, 2^31)`. -/
def wrapInt32 (v : Int) : Int := (v + 2147483648) % 4294967296 - 2147483648

/-- A value as an `int` of 64 bits: the representative of its class modulo `2^64` in
`[-2^63, 2^63)`. -/
def wrapInt64 (v : Int) : Int :=
  (v + 9223372036854775808) % 18446744073709551616 - 9223372036854775808

/-- The struct `Colour` (its bytes). -/
structure Colour where
  Red : Nat
  Green : Nat
  Blue : Nat
deriving DecidableEq

/-- The Go statement `pixels[index] = value`; an index outside the slice panics. -/
def setPixelByte (pixels : List Nat) (index : Int) (value : Nat) : Option (List Nat) :=
  if 0 ≤ index ∧ index < (pixels.length : Int) then some (pixels.set index.toNat value)
  else none

/-- The function `Pixels`: a zeroed buffer of `windowWidth * windowHeight * 4` bytes (the
product is an `int32`); `make` panics on a negative length. -/
def Pixels (windowWidth windowHeight : Int) : Option (List Nat) :=
  let length := wrapInt32 (wrapInt32 (windowWidth * windowHeight) * 4)
  if length < 0 then none else some (List.replicate length.toNat 0)

/-- The function `Draw`. -/
def Draw (windowWidth : Int) (pixels : List Nat) (x y : Int) (colour : Colour) :
    Option (List Nat) :=
  let index := wrapInt32 (wrapInt32 (wrapInt32 (y * windowWidth) + x) * 4)
  let bit := wrapInt32 ((pixels.length : Int) - 4)
  if index < bit ∧ index ≥ 0 then
    match setPixelByte pixels index colour.Red with
    | none => none
    | some pixels1 =>
      match setPixelByte pixels1 (wrapInt32 (index + 1)) colour.Green with
      | none => none
      | some pixels2 => setPixelByte pixels2 (wrapInt32 (index + 2)) colour.Blue
  else some pixels

/-- The Go expression `a / b` on `int`: the quotient truncated towards zero; a zero
divisor panics. -/
def divInt (a b : Int) : Option Int :=
  if b = 0 then none else some (wrapInt64 (a.tdiv b))

/-- The values of the loop variable `x` of `Line`: from `xOrigin` down to
`xDestination + 1` when the origin is to the right, from `xOrigin` up to
`xDestination - 1` when it is to the left, none when both are equal. -/
def Line.xs (xOrigin xDestination : Int) : List Int :=
  if xOrigin > xDestination then
    (List.range (xOrigin - xDestination).toNat).map (fun k => xOrigin - (k : Int))
  else if xOrigin < xDestination then
    (List.range (xDestination - xOrigin).toNat).map (fun k => xOrigin + (k : Int))
  else []

/-- The `y` computed by the body of the loop of `Line` for the loop variable `x`:
`yOrigin - dy*(x-xOrigin)/dx` in the first loop (origin to the right of the destination),
`yOrigin + dy*(x-xOrigin)/dx` in the second. -/
def Line.y (xOrigin yOrigin xDestination yDestination x : Int) : Option Int :=
  let dx := wrapInt64 (xDestination - xOrigin)
  let dy := wrapInt64 (yDestination - yOrigin)
  match divInt (wrapInt64 (dy * wrapInt64 (x - xOrigin))) dx with
  | none => none
  | some quotient =>
    if xOrigin > xDestination then some (wrapInt64 (yOrigin - quotient))
    else some (wrapInt64 (yOrigin + quotient))

/-- The pixels `(x, y)` that `Line` plots, in the order of the loop. -/
def Line.plots (xOrigin yOrigin xDestination yDestination : Int) :
    Option (List (Int × Int)) :=
  (Line.xs xOrigin xDestination).mapM
    (fun x => (Line.y xOrigin yOrigin xDestination yDestination x).map (fun y => (x, y)))

/-- The function `Line`, on the coordinates already converted to `int`: every plotted
pixel is passed to `Draw` as a pair of `int32`. -/
def Line (windowWidth : Int) (pixels : List Nat) (strokeColour : Colour)
    (xOrigin yOrigin xDestination yDestination : Int) : Option (List Nat) :=
  match Line.plots xOrigin yOrigin xDestination yDestination with
  | none => none
  | some plots =>
    plots.foldlM
      (fun buffer plot => Draw windowWidth buffer (wrapInt32 plot.1) (wrapInt32 plot.2)
        strokeColour)
      pixels

/-- The invariant of a store from which nothing was removed: the occupied slots are
exactly `[0, size)` and every index entry points to one of them. -/
def componentEntityMap.Filled (pack : componentEntityMap) : Prop :=
  0 ≤ pack.size ∧
  (∀ i, pack.occupied i = true ↔ 0 ≤ i ∧ i < pack.size) ∧
  (∀ e j, pack.entityIndexMap e = some j → 0 ≤ j ∧ j < pack.size)

/-! # Properties -/

/-! ## The entity pool -/

theorem pool_cons :
    (List.range MaxEntities).map Int.ofNat = 0 :: (List.range' 1 9999).map Int.ofNat := by
  have h : MaxEntities = 9999 + 1 := rfl
  rw [h, List.range_eq_range', List.range'_succ]
  rfl

theorem pool_tail_cons : List.range' 1 9999 = 1 :: List.range' 2 9998 := by
  rw [show (9999 : Nat) = 9998 + 1 from rfl, List.range'_succ]

theorem CreateEntityManager_eq :
    CreateEntityManager =
      { available := 0 :: (List.range' 1 9999).map Int.ofNat
        living := 0
        signatures := fun _ => none } := by
  unfold CreateEntityManager
  rw [pool_cons]

theorem available_init :
    CreateEntityManager.available = (List.range MaxEntities).map Int.ofNat := by
  unfold CreateEntityManager
  dsimp only

theorem pool_nodup : CreateEntityManager.available.Nodup := by
  rw [available_init]
  exact List.Nodup.map (fun _ _ h => Int.ofNat.inj h) (List.nodup_range MaxEntities)

theorem pool_length : (CreateEntityManager.available.length : Int) = (MaxEntities : Int) := by
  rw [available_init]
  simp

theorem inRange_zero : inRange 0 = true := by decide

theorem calls_append (cs ds : List EntityCall) :
    ∀ (m : entityManager) (alive : List Entity),
      m.calls alive (cs ++ ds) =
        (m.calls alive cs).bind (fun r => r.1.calls r.2 ds) := by
  induction cs with
  | nil => intro m alive; rfl
  | cons c cs ih =>
    intro m alive
    simp only [List.cons_append, entityManager.calls]
    cases m.call alive c with
    | none => rfl
    | some r => exact ih r.1 r.2

/-- The books of the pool balance: a call that returns moves one handle between the
pool and the living count. -/
theorem call_balance (m m' : entityManager) (alive alive' : List Entity) (c : EntityCall)
    (h : m.call alive c = some (m', alive')) :
    m'.living + m'.available.length = m.living + m.available.length := by
  cases c with
  | Create =>
    unfold entityManager.call entityManager.Create at h
    cases hav : m.available with
    | nil => simp [hav] at h
    | cons next rest =>
      simp only [hav, Option.some.injEq, Prod.mk.injEq] at h
      obtain ⟨rfl, -⟩ := h
      simp
      omega
  | Destroy entity =>
    unfold entityManager.call entityManager.Destroy at h
    by_cases hr : inRange entity = true
    · simp only [hr, if_true, Option.some.injEq, Prod.mk.injEq] at h
      obtain ⟨rfl, -⟩ := h
      simp
    · simp [hr] at h

theorem calls_balance (cs : List EntityCall) :
    ∀ (m m' : entityManager) (alive alive' : List Entity),
      m.calls alive cs = some (m', alive') →
      m'.living + m'.available.length = m.living + m.available.length := by
  induction cs with
  | nil =>
    intro m m' alive alive' h
    simp only [entityManager.calls, Option.some.injEq, Prod.mk.injEq] at h
    rw [h.1]
  | cons c cs ih =>
    intro m m' alive alive' h
    simp only [entityManager.calls] at h
    cases hc : m.call alive c with
    | none => simp [hc] at h
    | some r =>
      obtain ⟨m1, a1⟩ := r
      simp only [hc] at h
      rw [ih m1 m' a1 alive' h, call_balance m m1 alive a1 c hc]

theorem call_poolDisjoint (m m' : entityManager) (alive alive' : List Entity) (c : EntityCall)
    (hinv : PoolDisjoint m alive)
    (hd : ∀ e, c = .Destroy e → e ∈ alive)
    (h : m.call alive c = some (m', alive')) : PoolDisjoint m' alive' := by
  obtain ⟨hav, hal, hdis⟩ := hinv
  cases c with
  | Create =>
    unfold entityManager.call entityManager.Create at h
    cases hav' : m.available with
    | nil => simp [hav'] at h
    | cons next rest =>
      simp only [hav', Option.some.injEq, Prod.mk.injEq] at h
      obtain ⟨rfl, rfl⟩ := h
      rw [hav'] at hav hdis
      have hn := List.nodup_cons.mp hav
      refine ⟨hn.2, List.nodup_cons.mpr ⟨hdis next (List.mem_cons_self _ _), hal⟩, ?_⟩
      intro e he hmem
      rcases List.mem_cons.mp hmem with rfl | hmem
      · exact hn.1 he
      · exact hdis e (List.mem_cons_of_mem _ he) hmem
  | Destroy entity =>
    have hmem := hd entity rfl
    unfold entityManager.call entityManager.Destroy at h
    by_cases hr : inRange entity = true
    · simp only [hr, if_true, Option.some.injEq, Prod.mk.injEq] at h
      obtain ⟨rfl, rfl⟩ := h
      refine ⟨?_, hal.filter _, ?_⟩
      · refine List.Nodup.append hav (List.nodup_singleton _) ?_
        intro e he he'
        rw [List.mem_singleton] at he'
        subst he'
        exact hdis e he hmem
      · intro e he hf
        simp only [List.mem_filter, decide_eq_true_eq] at hf
        rcases List.mem_append.mp he with he | he
        · exact hdis e he hf.1
        · exact hf.2 (List.mem_singleton.mp he)
    · simp [hr] at h

theorem calls_poolDisjoint (cs : List EntityCall) :
    ∀ (m m' : entityManager) (alive alive' : List Entity),
      PoolDisjoint m alive → m.destroysLiving alive cs = true →
      m.calls alive cs = some (m', alive') → PoolDisjoint m' alive' := by
  induction cs with
  | nil =>
    intro m m' alive alive' hinv _ h
    simp only [entityManager.calls, Option.some.injEq, Prod.mk.injEq] at h
    obtain ⟨rfl, rfl⟩ := h
    exact hinv
  | cons c cs ih =>
    intro m m' alive alive' hinv hd h
    simp only [entityManager.calls] at h
    simp only [entityManager.destroysLiving, Bool.and_eq_true] at hd
    cases hc : m.call alive c with
    | none => simp [hc] at h
    | some r =>
      obtain ⟨m1, a1⟩ := r
      simp only [hc] at h hd
      refine ih m1 m' a1 alive' (call_poolDisjoint m m1 alive a1 c hinv ?_ hc) hd.2 h
      intro e he
      subst he
      simpa using hd.1

/-- Any number of `Create` calls up to the size of the pool returns the head handles
of the pool in order. -/
theorem calls_replicate_Create (k : Nat) :
    ∀ (m : entityManager) (alive : List Entity), k ≤ m.available.length →
      m.calls alive (List.replicate k EntityCall.Create) =
        some ({ m with available := m.available.drop k, living := m.living + k },
              (m.available.take k).reverse ++ alive) := by
  induction k with
  | zero => intro m alive _; simp [entityManager.calls]
  | succ k ih =>
    intro m alive hk
    cases hav : m.available with
    | nil => simp [hav] at hk
    | cons next rest =>
      have hk' : k ≤ rest.length := by simpa [hav] using hk
      simp only [List.replicate_succ, entityManager.calls, entityManager.call,
        entityManager.Create, hav]
      rw [ih _ _ hk']
      simp
      omega

/-- With the handle `0` twice at the end of the pool, draining the pool with `Create`
calls returns `0` twice in a row. -/
theorem calls_drain_double (l : List Entity) (m : entityManager) (alive : List Entity)
    (hav : m.available = l ++ [0, 0]) :
    ∃ m', m.calls alive (List.replicate (l.length + 2) EntityCall.Create) =
      some (m', 0 :: 0 :: (l.reverse ++ alive)) := by
  have hk : l.length + 2 ≤ m.available.length := by simp [hav]
  refine ⟨{ m with available := m.available.drop (l.length + 2),
                    living := m.living + ((l.length + 2 : Nat) : Int) }, ?_⟩
  rw [calls_replicate_Create (l.length + 2) m alive hk]
  have ht : List.take (l.length + 2) m.available = l ++ [0, 0] := by
    rw [hav]
    exact List.take_of_length_le (by simp)
  rw [ht]
  simp

/-- C1, as stated, fails: after `Create`, `Destroy(0)`, `Destroy(0)` the handle `0` is in
the pool twice, and the last two of 10001 further `Create` calls both return `0`, so the
handle is alive twice. -/
theorem entity_handle_alive_twice :
    ∃ m alive,
      CreateEntityManager.calls []
        ([EntityCall.Create, EntityCall.Destroy 0, EntityCall.Destroy 0] ++
          List.replicate 10001 EntityCall.Create) = some (m, alive) ∧
      alive.take 2 = [0, 0] ∧ ¬ alive.Nodup := by
  have h3 : CreateEntityManager.calls []
      [EntityCall.Create, EntityCall.Destroy 0, EntityCall.Destroy 0] =
      some ({ available := (List.range' 1 9999).map Int.ofNat ++ [0] ++ [0]
              living := -1
              signatures := fun e => if e = 0 then none else if e = 0 then none else none },
            []) := by
    simp [entityManager.calls, entityManager.call, entityManager.Create,
      entityManager.Destroy, CreateEntityManager_eq, inRange_zero]
  have hlen : ((List.range' 1 9999).map Int.ofNat).length = 9999 := by
    rw [List.length_map, List.length_range']
  generalize (List.range' 1 9999).map Int.ofNat = l at h3 hlen
  have hn : (10001 : Nat) = l.length + 2 := by rw [hlen]
  obtain ⟨m', hm'⟩ := calls_drain_double l
    { available := l ++ [0] ++ [0]
      living := -1
      signatures := fun e => if e = 0 then none else if e = 0 then none else none } []
    (by simp)
  refine ⟨m', 0 :: 0 :: (l.reverse ++ []), ?_, rfl, ?_⟩
  · rw [calls_append, h3, Option.some_bind, hn]
    exact hm'
  · intro h
    exact (List.nodup_cons.mp h).1 (List.mem_cons_self _ _)

/-- C1, amended: in every sequence of `Create` and `Destroy` calls from
`CreateEntityManager()` that runs without a panic, `Living()` never exceeds
`MaxEntities`; and when every `Destroy` is given a handle that is alive at that moment,
no handle is alive twice and the next `Create` returns a handle that is not alive. -/
theorem entity_handles_unique (cs : List EntityCall) (m : entityManager) (alive : List Entity)
    (hrun : CreateEntityManager.calls [] cs = some (m, alive)) :
    m.Living ≤ (MaxEntities : Int) ∧
      (CreateEntityManager.destroysLiving [] cs = true →
        alive.Nodup ∧ ∀ m' e, m.Create = some (m', e) → e ∉ alive) := by
  constructor
  · have hb := calls_balance cs _ _ _ _ hrun
    have hl := pool_length
    have h0 : CreateEntityManager.living = 0 := rfl
    unfold entityManager.Living
    have : (0 : Int) ≤ (m.available.length : Int) := Int.natCast_nonneg _
    omega
  · intro hd
    have hinit : PoolDisjoint CreateEntityManager [] :=
      ⟨pool_nodup, List.nodup_nil, fun _ _ h => by simp at h⟩
    obtain ⟨hav, hal, hdis⟩ := calls_poolDisjoint cs _ _ _ _ hinit hd hrun
    refine ⟨hal, ?_⟩
    intro m' e hc
    unfold entityManager.Create at hc
    cases hav' : m.available with
    | nil => simp [hav'] at hc
    | cons next rest =>
      simp only [hav', Option.some.injEq, Prod.mk.injEq] at hc
      obtain ⟨-, rfl⟩ := hc
      exact hdis next (by simp [hav'])

/-- A run of C1's amended statement: `Create`, `Destroy(0)`, `Create` leaves exactly the
handle `1` alive. -/
theorem entity_handles_unique_witness :
    entityManager.Living
        { available := (List.range' 2 9998).map Int.ofNat ++ [0]
          living := 1
          signatures := fun e => if e = 0 then none else none } ≤ (MaxEntities : Int) ∧
      ([(1 : Entity)].Nodup ∧
        ∀ m' e,
          entityManager.Create
            { available := (List.range' 2 9998).map Int.ofNat ++ [0]
              living := 1
              signatures := fun e => if e = 0 then none else none } = some (m', e) →
          e ∉ [(1 : Entity)]) :=
  let h := entity_handles_unique [EntityCall.Create, EntityCall.Destroy 0, EntityCall.Create]
    { available := (List.range' 2 9998).map Int.ofNat ++ [0]
      living := 1
      signatures := fun e => if e = 0 then none else none } [1]
    (by
      simp [entityManager.calls, entityManager.call, entityManager.Create,
        entityManager.Destroy, CreateEntityManager_eq, inRange_zero, pool_tail_cons])
  ⟨h.1, h.2 (by
    simp [entityManager.destroysLiving, entityManager.call, entityManager.Create,
      entityManager.Destroy, CreateEntityManager_eq, inRange_zero, pool_tail_cons])⟩

/-! ## Component stores -/

theorem dense_empty : componentEntityMap.empty.Dense [] := by
  refine ⟨le_refl _, ?_, ?_, ?_, ?_⟩
  · intro i
    simp only [componentEntityMap.occupied, componentEntityMap.empty, Option.isSome_none]
    constructor
    · intro h; exact absurd h (by decide)
    · intro h; omega
  · intro e i h
    simp [componentEntityMap.empty] at h
  · intro i h0 h1
    simp only [componentEntityMap.empty] at h1
    omega
  · intro e
    simp [componentEntityMap.empty]

theorem dense_insert (pack : componentEntityMap) (held : List Entity) (entity : Entity)
    (component : Component) (hinv : pack.Dense held) (hnew : entity ∉ held) :
    (pack.insert entity component).Dense (held ++ [entity]) := by
  obtain ⟨hsize, hocc, hsparse, hdense, hheld⟩ := hinv
  have hnone : pack.entityIndexMap entity = none := by
    cases h : pack.entityIndexMap entity with
    | none => rfl
    | some i => exact absurd ((hheld entity).mp (by simp [h])) hnew
  refine ⟨?_, ?_, ?_, ?_, ?_⟩
  · simp only [componentEntityMap.insert]
    omega
  · intro i
    have ho := hocc i
    simp only [componentEntityMap.occupied] at ho
    simp only [componentEntityMap.occupied, componentEntityMap.insert, mapSet]
    by_cases hi : i = pack.size
    · subst hi
      simp
      omega
    · simp only [hi, if_false]
      rw [ho]
      omega
  · intro e i h
    simp only [componentEntityMap.insert, mapSet] at h ⊢
    by_cases he : e = entity
    · subst he
      simp only [if_true, Option.some.injEq] at h
      subst h
      simp
      omega
    · simp only [he, if_false] at h
      obtain ⟨hr, hi⟩ := hsparse e i h
      have hne : i ≠ pack.size := by omega
      simp only [hne, if_false]
      exact ⟨by omega, hi⟩
  · intro i h0 h1
    simp only [componentEntityMap.insert, mapSet] at h1 ⊢
    by_cases hi : i = pack.size
    · subst hi
      exact ⟨entity, by simp⟩
    · obtain ⟨e, he1, he2⟩ := hdense i h0 (by omega)
      have hne : e ≠ entity := by
        intro heq
        subst heq
        rw [hnone] at he2
        exact absurd he2 (by simp)
      exact ⟨e, by simp [hi, he1], by simp [hne, he2]⟩
  · intro e
    simp only [componentEntityMap.insert, mapSet, List.mem_append, List.mem_singleton]
    by_cases he : e = entity
    · simp [he]
    · simp only [he, if_false, or_false]
      exact hheld e

theorem dense_inserts (items : List (Entity × Component)) :
    ∀ (pack : componentEntityMap) (held : List Entity), pack.Dense held →
      (∀ p ∈ items, p.1 ∉ held) → (items.map Prod.fst).Nodup →
      (pack.calls (items.map (fun p => StoreCall.insert p.1 p.2))).Dense
        (held ++ items.map Prod.fst) := by
  induction items with
  | nil =>
    intro pack held hinv _ _
    simpa [componentEntityMap.calls] using hinv
  | cons p items ih =>
    intro pack held hinv hnew hnd
    simp only [List.map_cons, List.nodup_cons] at hnd
    have h1 := dense_insert pack held p.1 p.2 hinv (hnew p (List.mem_cons_self _ _))
    have h2 := ih (pack.insert p.1 p.2) (held ++ [p.1]) h1 (by
      intro q hq hmem
      rcases List.mem_append.mp hmem with hmem | hmem
      · exact hnew q (List.mem_cons_of_mem _ hq) hmem
      · rw [List.mem_singleton] at hmem
        exact hnd.1 (hmem ▸ List.mem_map_of_mem Prod.fst hq)) hnd.2
    simpa [componentEntityMap.calls, componentEntityMap.call] using h2

theorem sparseSet_of_dense (pack : componentEntityMap) (held : List Entity)
    (hinv : pack.Dense held) : pack.SparseSet := by
  obtain ⟨_, hocc, hsparse, hdense, _⟩ := hinv
  refine ⟨hocc, ?_, ?_, ?_⟩
  · intro i j e _ _ hi hj
    obtain ⟨e1, h1, h2⟩ := hdense i ((hocc i).mp ‹_›).1 ((hocc i).mp ‹_›).2
    obtain ⟨e2, h3, h4⟩ := hdense j ((hocc j).mp ‹_›).1 ((hocc j).mp ‹_›).2
    rw [hi] at h1
    rw [hj] at h3
    cases h1
    cases h3
    rw [h2] at h4
    exact Option.some.inj h4
  · intro i hi
    obtain ⟨e, h1, _⟩ := hdense i ((hocc i).mp hi).1 ((hocc i).mp hi).2
    exact ⟨e, h1⟩
  · intro i e hi
    constructor
    · intro h
      obtain ⟨e1, h1, h2⟩ := hdense i ((hocc i).mp hi).1 ((hocc i).mp hi).2
      rw [h] at h1
      cases h1
      exact h2
    · intro h
      exact (hsparse e i h).2

/-- C3, as stated, fails: inserting entity `0` twice leaves it as the owner of the two
occupied slots `0` and `1`, and `indexEntityMap[0] = 0` while `entityIndexMap[0] = 1`. -/
theorem store_double_insert_not_sparse_set :
    ¬ (componentEntityMap.empty.calls
        [StoreCall.insert 0 ⟨"position", 1⟩, StoreCall.insert 0 ⟨"position", 2⟩]).SparseSet := by
  intro h
  have h01 := h.2.1 0 1 0 (by decide) (by decide) (by decide) (by decide)
  exact absurd h01 (by decide)

/-- C3, amended: every store reached from the empty store by inserting pairwise distinct
entities satisfies the sparse-set invariant. -/
theorem store_sparse_set_of_distinct_inserts (items : List (Entity × Component))
    (hdistinct : (items.map Prod.fst).Nodup) :
    (componentEntityMap.empty.calls
      (items.map (fun p => StoreCall.insert p.1 p.2))).SparseSet :=
  sparseSet_of_dense _ _
    (dense_inserts items componentEntityMap.empty [] dense_empty
      (fun _ _ h => by simp at h) hdistinct)

/-- A run of C3's amended statement: the store holding entities `3` and `5`. -/
theorem store_sparse_set_of_distinct_inserts_witness :
    (componentEntityMap.empty.calls
      [StoreCall.insert 3 ⟨"position", 1⟩, StoreCall.insert 5 ⟨"position", 2⟩]).SparseSet :=
  store_sparse_set_of_distinct_inserts [(3, ⟨"position", 1⟩), (5, ⟨"position", 2⟩)]
    (by decide)

/-- C4, evaluated on the code: with `"position"` registered and attached to entity `0`
only, `Destroy(1)` deletes slot `0` of the store (the zero value of the absent entry
`entityIndexMap[1]`), so `Read(0, "position")` changes from the component to nil and
the size of the store, which never held entity `1`, drops from `1` to `0`. -/
theorem destroy_absent_entity_deletes_slot_zero :
    ((CreateComponentManager.Register "position").Attach 0 "position" ⟨"position", 7⟩).bind
        (fun m => m.Read 0 "position") = some (some ⟨"position", 7⟩) ∧
    ((CreateComponentManager.Register "position").Attach 0 "position" ⟨"position", 7⟩).bind
        (fun m => (m.Destroy 1).Read 0 "position") = some none ∧
    ((CreateComponentManager.Register "position").Attach 0 "position" ⟨"position", 7⟩).bind
        (fun m => (m.components "position").map (fun pack => pack.size)) = some 1 ∧
    ((CreateComponentManager.Register "position").Attach 0 "position" ⟨"position", 7⟩).bind
        (fun m => ((m.Destroy 1).components "position").map (fun pack => pack.size)) =
      some 0 := by
  decide

/-- C5, evaluated on the code: `Remove` has an empty body, so after `Attach(0, "A", v)`
and `Remove(0, "A")` the read `Read(0, "A")` still returns `v` and the store of `"A"`
has size `1`, not its size `0` from before the `Attach`. -/
theorem remove_after_attach_keeps_component :
    ((CreateComponentManager.Register "A").components "A").map (fun pack => pack.size) =
      some 0 ∧
    ((CreateComponentManager.Register "A").Attach 0 "A" ⟨"A", 7⟩).bind
        (fun m => (m.Remove 0 "A").Read 0 "A") = some (some ⟨"A", 7⟩) ∧
    ((CreateComponentManager.Register "A").Attach 0 "A" ⟨"A", 7⟩).bind
        (fun m => ((m.Remove 0 "A").components "A").map (fun pack => pack.size)) =
      some 1 := by
  decide

/-- C10, as stated, fails: registering `"A"` a second time moves its bit index from `0`
to `1`, makes `Read(0, "A")` nil where it returned the attached component, and moves the
counter from `1` to `2`. -/
theorem register_twice_overwrites :
    ((CreateComponentManager.Register "A").Attach 0 "A" ⟨"A", 7⟩).map
        (fun m => (m.Signature "A", m.Read 0 "A", m.next)) =
      some (0, some (some ⟨"A", 7⟩), 1) ∧
    ((CreateComponentManager.Register "A").Attach 0 "A" ⟨"A", 7⟩).map
        (fun m => ((m.Register "A").Signature "A", (m.Register "A").Read 0 "A",
          (m.Register "A").next)) =
      some (1, some none, 2) := by
  decide

/-- C10, amended: `Register(name)`, also for a name that is registered already, does
not fail; it gives the name the bit index `next`, replaces its store by an empty one
(every `Read(e, name)` is nil), increments the counter, and leaves the bit index and
the reads of every other name as they were. -/
theorem register_overwrites (manager : componentManager) (name : String) :
    (manager.Register name).Signature name = manager.next ∧
    (∀ e, (manager.Register name).Read e name = some none) ∧
    (manager.Register name).next = manager.next + 1 ∧
    (∀ other, other ≠ name →
      (manager.Register name).Signature other = manager.Signature other ∧
      ∀ e, (manager.Register name).Read e other = manager.Read e other) := by
  refine ⟨?_, ?_, rfl, ?_⟩
  · simp [componentManager.Register, componentManager.Signature, mapSet]
  · intro e
    simp [componentManager.Register, componentManager.Read, mapSet,
      componentEntityMap.read, componentEntityMap.empty]
  · intro other hne
    constructor
    · simp [componentManager.Register, componentManager.Signature, mapSet, hne]
    · intro e
      simp [componentManager.Register, componentManager.Read, mapSet, hne]

/-! ## Systems -/

theorem world_calls_append (cs ds : List WorldCall) :
    ∀ (w : world) (alive : List Entity),
      w.calls alive (cs ++ ds) = (w.calls alive cs).bind (fun r => r.1.calls r.2 ds) := by
  induction cs with
  | nil => intro w alive; rfl
  | cons c cs ih =>
    intro w alive
    simp only [List.cons_append, world.calls]
    cases w.call alive c with
    | none => rfl
    | some r => exact ih r.1 r.2

/-- C9, evaluated on the code: `Unsubscribe` has an empty body, so an entity subscribed
by `Change(0, {0})` to a system that requires bit `0` is still in the subscriber list
after `Change(0, {})`, although the empty signature is no superset of `{0}`. -/
theorem change_keeps_subscriber_without_superset :
    BitSet.IsSuperSet BitSet.new {0} = false ∧
    ((((CreateSystemManager.Register "physics" (System.fresh "physics")).Use "physics"
        (some {0})).Change 0 {0}).Read "physics").map (fun s => s.Entities) = some [0] ∧
    (((((CreateSystemManager.Register "physics" (System.fresh "physics")).Use "physics"
        (some {0})).Change 0 {0}).Change 0 BitSet.new).Read "physics").map
          (fun s => s.Entities) = some [0] := by
  decide

/-- C8, evaluated on the code (the scenario of the specification): with the entities `0`
and `1` subscribed to `"physics"`, `Destroy(0)` leaves the subscriber list `[0, 1]`, not
`[1]`; `systemManager.Destroy` has an empty body. -/
theorem destroy_keeps_subscriber :
    (CreateWorld.calls []
      [WorldCall.RegisterComponent "position", WorldCall.RegisterComponent "velocity",
        WorldCall.RegisterSystem (System.fresh "physics") ["position", "velocity"],
        WorldCall.CreateEntity,
        WorldCall.AttachComponent 0 ⟨"position", 1⟩,
        WorldCall.AttachComponent 0 ⟨"velocity", 2⟩,
        WorldCall.CreateEntity,
        WorldCall.AttachComponent 1 ⟨"position", 3⟩,
        WorldCall.AttachComponent 1 ⟨"velocity", 4⟩]).bind
      (fun r => r.1.Subscribers "physics") = some [0, 1] ∧
    (CreateWorld.calls []
      [WorldCall.RegisterComponent "position", WorldCall.RegisterComponent "velocity",
        WorldCall.RegisterSystem (System.fresh "physics") ["position", "velocity"],
        WorldCall.CreateEntity,
        WorldCall.AttachComponent 0 ⟨"position", 1⟩,
        WorldCall.AttachComponent 0 ⟨"velocity", 2⟩,
        WorldCall.CreateEntity,
        WorldCall.AttachComponent 1 ⟨"position", 3⟩,
        WorldCall.AttachComponent 1 ⟨"velocity", 4⟩,
        WorldCall.Destroy 0]).bind
      (fun r => r.1.Subscribers "physics") = some [0, 1] := by
  constructor <;> decide!

/-! ## Subscriptions -/

theorem subscribed_iff (system : SystemAccess) (entity : Entity) :
    system.Subscribed entity = true ↔ entity ∈ system.entities := by
  simp [SystemAccess.Subscribed, List.any_eq_true]

theorem isSuperSet_iff (b other : BitSet) : b.IsSuperSet other = true ↔ other ⊆ b := by
  simp [BitSet.IsSuperSet]

theorem mem_changeOne (manager : systemManager) (entity : Entity) (signature : BitSet)
    (name : String) (system : System) (required : BitSet)
    (hreq : manager.signatures name = some required) (x : Entity) :
    x ∈ (manager.changeOne entity signature name system).entities ↔
      x ∈ system.entities ∨ (x = entity ∧ required ⊆ signature) := by
  unfold systemManager.changeOne
  rw [hreq]
  by_cases hsub : entity ∈ system.entities
  · have h1 : system.Subscribed entity = true := (subscribed_iff _ _).mpr hsub
    simp only [h1, Bool.not_true, Bool.false_and, SystemAccess.Unsubscribe]
    constructor
    · intro h; exact Or.inl h
    · rintro (h | ⟨rfl, -⟩)
      · exact h
      · exact hsub
  · have h1 : system.Subscribed entity = false := by
      cases h : system.Subscribed entity with
      | false => rfl
      | true => exact absurd ((subscribed_iff _ _).mp h) hsub
    by_cases hsup : required ⊆ signature
    · have h2 : signature.IsSuperSet required = true := (isSuperSet_iff _ _).mpr hsup
      simp [h1, h2, SystemAccess.Subscribe, hsup]
    · have h2 : signature.IsSuperSet required = false := by
        cases h : signature.IsSuperSet required with
        | false => rfl
        | true => exact absurd ((isSuperSet_iff _ _).mp h) hsup
      simp [h1, h2, SystemAccess.Unsubscribe, hsup]

theorem nodup_changeOne (manager : systemManager) (entity : Entity) (signature : BitSet)
    (name : String) (system : System) (hnd : system.entities.Nodup) :
    (manager.changeOne entity signature name system).entities.Nodup := by
  unfold systemManager.changeOne
  cases manager.signatures name with
  | none => simpa [SystemAccess.Unsubscribe] using hnd
  | some required =>
    by_cases hsub : entity ∈ system.entities
    · have h1 : system.Subscribed entity = true := (subscribed_iff _ _).mpr hsub
      simpa [h1, SystemAccess.Unsubscribe] using hnd
    · have h1 : system.Subscribed entity = false := by
        cases h : system.Subscribed entity with
        | false => rfl
        | true => exact absurd ((subscribed_iff _ _).mp h) hsub
      cases h2 : signature.IsSuperSet required with
      | false => simpa [h1, h2, SystemAccess.Unsubscribe] using hnd
      | true =>
        simp only [h1, h2, Bool.not_false, Bool.and_self, if_true, SystemAccess.Subscribe]
        exact List.Nodup.append hnd (List.nodup_singleton _)
          (by
            intro a ha ha'
            rw [List.mem_singleton] at ha'
            exact hsub (ha' ▸ ha))

/-- What a returning `AttachComponent` does to the world. -/
theorem attach_spec (w w' : world) (entity : Entity) (component : Component)
    (h : w.AttachComponent entity component = some w') :
    inRange entity = true ∧
    w'.components.signatures = w.components.signatures ∧
    w'.entities.signatures =
      (fun e => if e = entity then
          some ((w.signatureOf entity).Set (w.components.Signature component.Name))
        else w.entities.signatures e) ∧
    w'.entities.available = w.entities.available ∧
    w'.entities.living = w.entities.living ∧
    w'.systems = w.systems.Change entity
      ((w.signatureOf entity).Set (w.components.Signature component.Name)) := by
  unfold world.AttachComponent at h
  cases hatt : w.components.Attach entity component.Name component with
  | none => simp [hatt] at h
  | some components =>
    have hsig : components.signatures = w.components.signatures := by
      unfold componentManager.Attach at hatt
      cases hc : w.components.components component.Name with
      | none => simp [hc] at hatt
      | some pack =>
        simp only [hc, Option.some.injEq] at hatt
        rw [← hatt]
    have hS : components.Signature component.Name = w.components.Signature component.Name := by
      simp [componentManager.Signature, hsig]
    by_cases hr : inRange entity = true
    · simp only [hatt, entityManager.Read, entityManager.Sign, hr, if_true,
        Option.some.injEq] at h
      subst h
      refine ⟨hr, hsig, ?_, rfl, rfl, ?_⟩
      · simp only [world.signatureOf, hS]
      · simp only [world.signatureOf, hS]
    · simp [hatt, entityManager.Read, hr] at h

/-- What a returning `CreateEntity` does to the world. -/
theorem create_spec (w w' : world) (entity : Entity)
    (h : w.CreateEntity = some (w', entity)) :
    w'.components = w.components ∧ w'.systems = w.systems ∧
    w'.entities.signatures = w.entities.signatures ∧
    w.entities.available = entity :: w'.entities.available ∧
    w'.entities.living = w.entities.living + 1 := by
  unfold world.CreateEntity entityManager.Create at h
  cases hav : w.entities.available with
  | nil => simp [hav] at h
  | cons next rest =>
    simp only [hav, Option.some.injEq, Prod.mk.injEq] at h
    obtain ⟨rfl, rfl⟩ := h
    exact ⟨rfl, rfl, rfl, rfl, rfl⟩

theorem matched_attach (w w' : world) (entity : Entity) (component : Component)
    (hm : w.Matched) (h : w.AttachComponent entity component = some w') : w'.Matched := by
  obtain ⟨-, -, hsig, -, -, hsys⟩ := attach_spec w w' entity component h
  intro name system' required hs' hr' hne
  rw [hsys] at hs' hr'
  simp only [systemManager.Change] at hs' hr'
  cases hs : w.systems.systems name with
  | none => simp [hs] at hs'
  | some system =>
    simp only [hs, Option.map_some', Option.some.injEq] at hs'
    subst hs'
    obtain ⟨hnd, hmem⟩ := hm name system required hs hr' hne
    refine ⟨nodup_changeOne _ _ _ _ _ hnd, ?_⟩
    intro x
    rw [mem_changeOne _ _ _ _ _ required hr' x, hmem x]
    have hsx : w'.signatureOf x =
        if x = entity then
          (w.signatureOf entity).Set (w.components.Signature component.Name)
        else w.signatureOf x := by
      show (w'.entities.signatures x).getD BitSet.new = _
      rw [hsig]
      by_cases hx : x = entity
      · simp [hx]
      · simp [hx, world.signatureOf]
    rw [hsx]
    by_cases hx : x = entity
    · subst hx
      simp only [if_true, true_and]
      constructor
      · rintro (h1 | h1)
        · exact h1.trans (Finset.subset_insert _ _)
        · exact h1
      · intro h1; exact Or.inr h1
    · simp [hx]

theorem matched_create (w w' : world) (entity : Entity)
    (hm : w.Matched) (h : w.CreateEntity = some (w', entity)) : w'.Matched := by
  obtain ⟨-, hsys, hsig, -, -⟩ := create_spec w w' entity h
  intro name system required hs hr hne
  rw [hsys] at hs hr
  have := hm name system required hs hr hne
  simpa [world.signatureOf, hsig] using this

/-- What a population call keeps: the matching invariant, the required signatures, the
set of registered systems and the bit indices of the component types. -/
theorem population_matched (cs : List WorldCall) :
    ∀ (w w' : world) (alive alive' : List Entity),
      (∀ c ∈ cs, WorldCall.isPopulation c = true) → w.Matched →
      w.calls alive cs = some (w', alive') →
      w'.Matched ∧ w'.systems.signatures = w.systems.signatures ∧
      (∀ name, (w'.systems.systems name).isSome = (w.systems.systems name).isSome) ∧
      w'.components.signatures = w.components.signatures := by
  induction cs with
  | nil =>
    intro w w' alive alive' _ hm h
    simp only [world.calls, Option.some.injEq, Prod.mk.injEq] at h
    obtain ⟨rfl, -⟩ := h
    exact ⟨hm, rfl, fun _ => rfl, rfl⟩
  | cons c cs ih =>
    intro w w' alive alive' hpop hm h
    have hc := hpop c (List.mem_cons_self _ _)
    have hcs : ∀ d ∈ cs, WorldCall.isPopulation d = true :=
      fun d hd => hpop d (List.mem_cons_of_mem _ hd)
    simp only [world.calls] at h
    cases hcall : w.call alive c with
    | none => simp [hcall] at h
    | some r =>
      obtain ⟨w1, a1⟩ := r
      simp only [hcall] at h
      cases c with
      | CreateEntity =>
        simp only [world.call] at hcall
        cases hce : w.CreateEntity with
        | none => simp [hce] at hcall
        | some r =>
          obtain ⟨w2, e⟩ := r
          simp only [hce, Option.some.injEq, Prod.mk.injEq] at hcall
          obtain ⟨rfl, -⟩ := hcall
          obtain ⟨hcomp, hsys, -, -, -⟩ := create_spec w w2 e hce
          obtain ⟨h1, h2, h3, h4⟩ := ih w2 w' a1 alive' hcs (matched_create w w2 e hm hce) h
          refine ⟨h1, ?_, ?_, ?_⟩
          · rw [h2, hsys]
          · intro name; rw [h3, hsys]
          · rw [h4, hcomp]
      | AttachComponent entity component =>
        simp only [world.call] at hcall
        cases hat : w.AttachComponent entity component with
        | none => simp [hat] at hcall
        | some w2 =>
          simp only [hat, Option.some.injEq, Prod.mk.injEq] at hcall
          obtain ⟨rfl, -⟩ := hcall
          obtain ⟨-, hcomp, -, -, -, hsys⟩ := attach_spec w w2 entity component hat
          obtain ⟨h1, h2, h3, h4⟩ :=
            ih w2 w' a1 alive' hcs (matched_attach w w2 entity component hm hat) h
          refine ⟨h1, ?_, ?_, ?_⟩
          · rw [h2, hsys]; rfl
          · intro name
            rw [h3, hsys]
            simp only [systemManager.Change]
            cases w.systems.systems name <;> rfl
          · rw [h4, hcomp]
      | RegisterComponent name => simp [WorldCall.isPopulation] at hc
      | RegisterSystem system components => simp [WorldCall.isPopulation] at hc
      | SignEntity entity components => simp [WorldCall.isPopulation] at hc
      | Destroy entity => simp [WorldCall.isPopulation] at hc

theorem population_signedAlive (cs : List WorldCall) :
    ∀ (w w' : world) (alive alive' : List Entity),
      (∀ c ∈ cs, WorldCall.isPopulation c = true) → w.SignedAlive alive →
      w.attachesLiving alive cs = true →
      w.calls alive cs = some (w', alive') → w'.SignedAlive alive' := by
  induction cs with
  | nil =>
    intro w w' alive alive' _ hs _ h
    simp only [world.calls, Option.some.injEq, Prod.mk.injEq] at h
    obtain ⟨rfl, rfl⟩ := h
    exact hs
  | cons c cs ih =>
    intro w w' alive alive' hpop hs hd h
    have hc := hpop c (List.mem_cons_self _ _)
    have hcs : ∀ d ∈ cs, WorldCall.isPopulation d = true :=
      fun d hd => hpop d (List.mem_cons_of_mem _ hd)
    simp only [world.calls] at h
    simp only [world.attachesLiving, Bool.and_eq_true] at hd
    cases hcall : w.call alive c with
    | none => simp [hcall] at h
    | some r =>
      obtain ⟨w1, a1⟩ := r
      simp only [hcall] at h hd
      refine ih w1 w' a1 alive' hcs ?_ hd.2 h
      cases c with
      | CreateEntity =>
        simp only [world.call] at hcall
        cases hce : w.CreateEntity with
        | none => simp [hce] at hcall
        | some r =>
          obtain ⟨w2, e⟩ := r
          simp only [hce, Option.some.injEq, Prod.mk.injEq] at hcall
          obtain ⟨rfl, rfl⟩ := hcall
          obtain ⟨-, -, hsig, -, -⟩ := create_spec w w2 e hce
          intro x hx
          rw [hsig] at hx
          exact ⟨List.mem_cons_of_mem _ (hs x hx).1, (hs x hx).2⟩
      | AttachComponent entity component =>
        have hlive : entity ∈ alive := by simpa using hd.1
        simp only [world.call] at hcall
        cases hat : w.AttachComponent entity component with
        | none => simp [hat] at hcall
        | some w2 =>
          simp only [hat, Option.some.injEq, Prod.mk.injEq] at hcall
          obtain ⟨rfl, rfl⟩ := hcall
          obtain ⟨hr, -, hsig, -, -, -⟩ := attach_spec w w2 entity component hat
          intro x hx
          rw [hsig] at hx
          by_cases hxe : x = entity
          · subst hxe; exact ⟨hlive, hr⟩
          · simp only [hxe, if_false] at hx
            exact hs x hx
      | RegisterComponent name => simp [WorldCall.isPopulation] at hc
      | RegisterSystem system components => simp [WorldCall.isPopulation] at hc
      | SignEntity entity components => simp [WorldCall.isPopulation] at hc
      | Destroy entity => simp [WorldCall.isPopulation] at hc

theorem registration_blank (cs : List WorldCall) :
    ∀ (w w' : world) (alive alive' : List Entity),
      (∀ c ∈ cs, WorldCall.isRegistration c = true) → w.Blank →
      w.calls alive cs = some (w', alive') → w'.Blank ∧ alive' = alive := by
  induction cs with
  | nil =>
    intro w w' alive alive' _ hb h
    simp only [world.calls, Option.some.injEq, Prod.mk.injEq] at h
    obtain ⟨rfl, rfl⟩ := h
    exact ⟨hb, rfl⟩
  | cons c cs ih =>
    intro w w' alive alive' hreg hb h
    have hc := hreg c (List.mem_cons_self _ _)
    have hcs : ∀ d ∈ cs, WorldCall.isRegistration d = true :=
      fun d hd => hreg d (List.mem_cons_of_mem _ hd)
    simp only [world.calls] at h
    cases c with
    | RegisterComponent name =>
      simp only [world.call] at h
      exact ih (w.RegisterComponent name) w' alive alive' hcs ⟨hb.1, hb.2⟩ h
    | RegisterSystem system components =>
      simp only [world.call] at h
      have hempty : system.entities = [] := by
        simpa [WorldCall.isRegistration] using hc
      refine ih (w.RegisterSystem system components) w' alive alive' hcs ⟨?_, ?_⟩ h
      · intro e
        unfold world.RegisterSystem
        split <;> exact hb.1 e
      · intro name s hs
        have hs' : mapSet w.systems.systems system.Name system name = some s := by
          unfold world.RegisterSystem at hs
          split at hs <;> exact hs
        unfold mapSet at hs'
        by_cases hn : name = system.Name
        · simp only [hn, if_true, Option.some.injEq] at hs'
          rw [← hs']
          exact hempty
        · simp only [hn, if_false] at hs'
          exact hb.2 name s hs'
    | CreateEntity => simp [WorldCall.isRegistration] at hc
    | AttachComponent entity component => simp [WorldCall.isRegistration] at hc
    | SignEntity entity components => simp [WorldCall.isRegistration] at hc
    | Destroy entity => simp [WorldCall.isRegistration] at hc

theorem blank_createWorld : CreateWorld.Blank :=
  ⟨fun _ => rfl, fun _ _ h => by simp [CreateWorld, CreateSystemManager] at h⟩

theorem matched_of_blank (w : world) (hb : w.Blank) : w.Matched := by
  intro name system required hs _ hne
  have he := hb.2 name system hs
  refine ⟨by rw [he]; exact List.nodup_nil, ?_⟩
  intro e
  have hsig : w.signatureOf e = ∅ := by
    simp [world.signatureOf, hb.1 e, BitSet.new]
  rw [he, hsig]
  constructor
  · intro h; simp at h
  · intro h
    obtain ⟨i, hi⟩ := hne
    exact absurd (h hi) (Finset.not_mem_empty i)

theorem signedAlive_of_blank (w : world) (alive : List Entity) (hb : w.Blank) :
    w.SignedAlive alive :=
  fun e he => absurd (hb.1 e) he

theorem attachesLiving_append (cs ds : List WorldCall) :
    ∀ (w w1 : world) (alive a1 : List Entity),
      w.attachesLiving alive (cs ++ ds) = true → w.calls alive cs = some (w1, a1) →
      w1.attachesLiving a1 ds = true := by
  induction cs with
  | nil =>
    intro w w1 alive a1 hd h
    simp only [world.calls, Option.some.injEq, Prod.mk.injEq] at h
    obtain ⟨rfl, rfl⟩ := h
    exact hd
  | cons c cs ih =>
    intro w w1 alive a1 hd h
    simp only [List.cons_append, world.attachesLiving, Bool.and_eq_true] at hd
    simp only [world.calls] at h
    cases hcall : w.call alive c with
    | none => simp [hcall] at h
    | some r =>
      obtain ⟨w2, a2⟩ := r
      simp only [hcall] at h hd
      exact ih w2 w1 a2 a1 hd.2 h

theorem subscriptionsExact_of_matched (w : world) (alive : List Entity)
    (hm : w.Matched) (hs : w.SignedAlive alive) : w.SubscriptionsExact alive := by
  intro name system required hsys hreq hne e
  obtain ⟨-, hmem⟩ := hm name system required hsys hreq hne
  show e ∈ system.entities ↔ _
  rw [hmem e]
  constructor
  · intro hsub
    obtain ⟨i, hi⟩ := hne
    have hi' := hsub hi
    cases hsig : w.entities.signatures e with
    | none =>
      simp [world.signatureOf, hsig, BitSet.new] at hi'
    | some signature =>
      obtain ⟨hal, hr⟩ := hs e (by simp [hsig])
      refine ⟨hal, signature, ?_, ?_⟩
      · simp [world.Entity, entityManager.Read, hr, hsig]
      · rw [isSuperSet_iff]
        simpa [world.signatureOf, hsig] using hsub
  · rintro ⟨-, signature, hread, hsup⟩
    rw [isSuperSet_iff] at hsup
    unfold world.Entity entityManager.Read at hread
    by_cases hr : inRange e = true
    · simp only [hr, if_true, Option.some.injEq] at hread
      simpa [world.signatureOf, hread] using hsup
    · simp [hr] at hread

/-- C2, as stated, fails: `SignEntity` sets the signature without telling the systems.
After registering `"position"` and a system that requires it, creating entity `0` and
calling `SignEntity(0, "position")`, the entity is alive and its signature is a superset
of the required one, but the subscriber list is empty. -/
theorem sign_entity_breaks_subscriptions :
    ∃ w alive,
      CreateWorld.calls []
        [WorldCall.RegisterComponent "position",
          WorldCall.RegisterSystem (System.fresh "physics") ["position"],
          WorldCall.CreateEntity,
          WorldCall.SignEntity 0 ["position"]] = some (w, alive) ∧
      ¬ w.SubscriptionsExact alive := by
  have f0 : (CreateWorld.calls []
        [WorldCall.RegisterComponent "position",
          WorldCall.RegisterSystem (System.fresh "physics") ["position"],
          WorldCall.CreateEntity,
          WorldCall.SignEntity 0 ["position"]]).isSome = true := by decide!
  have f1 : (CreateWorld.calls []
        [WorldCall.RegisterComponent "position",
          WorldCall.RegisterSystem (System.fresh "physics") ["position"],
          WorldCall.CreateEntity,
          WorldCall.SignEntity 0 ["position"]]).bind
        (fun r => (r.1.systems.systems "physics").map (fun s => s.entities)) = some [] := by
    decide!
  have f2 : (CreateWorld.calls []
        [WorldCall.RegisterComponent "position",
          WorldCall.RegisterSystem (System.fresh "physics") ["position"],
          WorldCall.CreateEntity,
          WorldCall.SignEntity 0 ["position"]]).bind
        (fun r => r.1.systems.signatures "physics") = some {0} := by
    decide!
  have f3 : (CreateWorld.calls []
        [WorldCall.RegisterComponent "position",
          WorldCall.RegisterSystem (System.fresh "physics") ["position"],
          WorldCall.CreateEntity,
          WorldCall.SignEntity 0 ["position"]]).bind
        (fun r => r.1.Entity 0) = some (some {0}) := by
    decide!
  have f4 : (CreateWorld.calls []
        [WorldCall.RegisterComponent "position",
          WorldCall.RegisterSystem (System.fresh "physics") ["position"],
          WorldCall.CreateEntity,
          WorldCall.SignEntity 0 ["position"]]).map (fun r => r.2) = some [0] := by
    decide!
  cases h : CreateWorld.calls []
        [WorldCall.RegisterComponent "position",
          WorldCall.RegisterSystem (System.fresh "physics") ["position"],
          WorldCall.CreateEntity,
          WorldCall.SignEntity 0 ["position"]] with
  | none => rw [h] at f0; exact absurd f0 (by decide)
  | some r =>
    obtain ⟨w, alive⟩ := r
    rw [h] at f1 f2 f3 f4
    simp only [Option.some_bind, Option.map_some', Option.some.injEq] at f1 f2 f3 f4
    refine ⟨w, alive, rfl, ?_⟩
    intro hex
    cases hs : w.systems.systems "physics" with
    | none => simp [hs] at f1
    | some system =>
      simp only [hs, Option.map_some', Option.some.injEq] at f1
      have := (hex "physics" system {0} hs f2 (Finset.singleton_nonempty 0) 0).mpr
        ⟨by rw [f4]; exact List.mem_singleton_self 0, {0}, f3, by decide⟩
      simp [SystemAccess.Entities, f1] at this

/-- C2, amended: after every sequence of calls that first registers component types and
systems (systems that have no subscriber yet) and then only calls `CreateEntity` and
`AttachComponent`, the latter on living entities, and that runs without a panic: for
every registered system with a non-empty required signature, an entity is in its
subscriber list if and only if it is alive and its signature is a superset of the
required signature. -/
theorem subscriptions_exact (setup population : List WorldCall) (w : world)
    (alive : List Entity)
    (hsetup : ∀ c ∈ setup, WorldCall.isRegistration c = true)
    (hpopulation : ∀ c ∈ population, WorldCall.isPopulation c = true)
    (hliving : CreateWorld.attachesLiving [] (setup ++ population) = true)
    (hrun : CreateWorld.calls [] (setup ++ population) = some (w, alive)) :
    w.SubscriptionsExact alive := by
  rw [world_calls_append] at hrun
  cases h1 : CreateWorld.calls [] setup with
  | none => simp [h1] at hrun
  | some r =>
    obtain ⟨w1, a1⟩ := r
    simp only [h1, Option.some_bind] at hrun
    obtain ⟨hb, -⟩ := registration_blank setup _ _ _ _ hsetup blank_createWorld h1
    have hd := attachesLiving_append setup population _ _ _ _ hliving h1
    exact subscriptionsExact_of_matched w alive
      (population_matched population w1 w a1 alive hpopulation (matched_of_blank w1 hb) hrun).1
      (population_signedAlive population w1 w a1 alive hpopulation
        (signedAlive_of_blank w1 a1 hb) hd hrun)

/-- A run of C2's amended statement: one component type, one system, one entity with
the component attached. -/
theorem subscriptions_exact_witness :
    ∃ w alive,
      CreateWorld.calls []
        ([WorldCall.RegisterComponent "position",
          WorldCall.RegisterSystem (System.fresh "physics") ["position"]] ++
         [WorldCall.CreateEntity, WorldCall.AttachComponent 0 ⟨"position", 1⟩]) =
        some (w, alive) ∧
      w.SubscriptionsExact alive := by
  have f0 : (CreateWorld.calls []
        ([WorldCall.RegisterComponent "position",
          WorldCall.RegisterSystem (System.fresh "physics") ["position"]] ++
         [WorldCall.CreateEntity, WorldCall.AttachComponent 0 ⟨"position", 1⟩])).isSome =
      true := by decide!
  cases h : CreateWorld.calls []
        ([WorldCall.RegisterComponent "position",
          WorldCall.RegisterSystem (System.fresh "physics") ["position"]] ++
         [WorldCall.CreateEntity, WorldCall.AttachComponent 0 ⟨"position", 1⟩]) with
  | none => rw [h] at f0; exact absurd f0 (by decide)
  | some r =>
    exact ⟨r.1, r.2, rfl,
      subscriptions_exact
        [WorldCall.RegisterComponent "position",
          WorldCall.RegisterSystem (System.fresh "physics") ["position"]]
        [WorldCall.CreateEntity, WorldCall.AttachComponent 0 ⟨"position", 1⟩] r.1 r.2
        (by decide) (by decide) (by decide!) h⟩

/-! ## Bit indices and the signature of an entity -/

theorem bitsDistinct_create : CreateComponentManager.BitsDistinct :=
  ⟨fun _ _ h => by simp [CreateComponentManager] at h,
   fun _ _ _ h => by simp [CreateComponentManager] at h⟩

theorem bitsDistinct_register (manager : componentManager) (name : String)
    (h : manager.BitsDistinct) : (manager.Register name).BitsDistinct := by
  obtain ⟨hlt, hinj⟩ := h
  constructor
  · intro n i hn
    simp only [componentManager.Register, mapSet] at hn ⊢
    by_cases hnn : n = name
    · simp only [hnn, if_true, Option.some.injEq] at hn
      omega
    · simp only [hnn, if_false] at hn
      have := hlt n i hn
      omega
  · intro n n' i hn hn'
    simp only [componentManager.Register, mapSet] at hn hn'
    by_cases h1 : n = name <;> by_cases h2 : n' = name
    · rw [h1, h2]
    · simp only [h1, if_true, Option.some.injEq] at hn
      simp only [h2, if_false] at hn'
      have := hlt n' i hn'
      omega
    · simp only [h2, if_true, Option.some.injEq] at hn'
      simp only [h1, if_false] at hn
      have := hlt n i hn
      omega
    · simp only [h1, if_false] at hn
      simp only [h2, if_false] at hn'
      exact hinj n n' i hn hn'

/-- Registration calls keep the bit indices distinct and give every registered
component type a bit index. -/
theorem registration_bits (cs : List WorldCall) :
    ∀ (w w' : world) (alive alive' : List Entity),
      (∀ c ∈ cs, WorldCall.isRegistration c = true) →
      w.calls alive cs = some (w', alive') →
      (w.components.BitsDistinct → w'.components.BitsDistinct) ∧
      (∀ name, (w.components.signatures name).isSome = true ∨
          WorldCall.RegisterComponent name ∈ cs →
        (w'.components.signatures name).isSome = true) := by
  induction cs with
  | nil =>
    intro w w' alive alive' _ h
    simp only [world.calls, Option.some.injEq, Prod.mk.injEq] at h
    obtain ⟨rfl, -⟩ := h
    exact ⟨id, fun name h => h.elim id (fun h => by simp at h)⟩
  | cons c cs ih =>
    intro w w' alive alive' hreg h
    have hc := hreg c (List.mem_cons_self _ _)
    have hcs : ∀ d ∈ cs, WorldCall.isRegistration d = true :=
      fun d hd => hreg d (List.mem_cons_of_mem _ hd)
    simp only [world.calls] at h
    cases c with
    | RegisterComponent n =>
      simp only [world.call] at h
      obtain ⟨hb, hsome⟩ := ih (w.RegisterComponent n) w' alive alive' hcs h
      refine ⟨fun hd => hb (bitsDistinct_register _ _ hd), ?_⟩
      intro name hname
      apply hsome
      by_cases hn : name = n
      · left
        simp [world.RegisterComponent, componentManager.Register, mapSet, hn]
      · rcases hname with hname | hname
        · left
          simpa [world.RegisterComponent, componentManager.Register, mapSet, hn] using hname
        · right
          rcases List.mem_cons.mp hname with hname | hname
          · exact absurd (WorldCall.RegisterComponent.inj hname) hn
          · exact hname
    | RegisterSystem system components =>
      simp only [world.call] at h
      have hcomp : (w.RegisterSystem system components).components = w.components := by
        unfold world.RegisterSystem
        split <;> rfl
      obtain ⟨hb, hsome⟩ := ih (w.RegisterSystem system components) w' alive alive' hcs h
      rw [hcomp] at hb hsome
      refine ⟨hb, ?_⟩
      intro name hname
      apply hsome
      rcases hname with hname | hname
      · exact Or.inl hname
      · right
        rcases List.mem_cons.mp hname with hname | hname
        · exact absurd hname (by simp)
        · exact hname
    | CreateEntity => simp [WorldCall.isRegistration] at hc
    | AttachComponent entity component => simp [WorldCall.isRegistration] at hc
    | SignEntity entity components => simp [WorldCall.isRegistration] at hc
    | Destroy entity => simp [WorldCall.isRegistration] at hc

/-- Two different registered names have different bit indices. -/
theorem signature_ne (manager : componentManager) (a b : String)
    (h : manager.BitsDistinct) (ha : (manager.signatures a).isSome = true)
    (hb : (manager.signatures b).isSome = true) (hab : a ≠ b) :
    manager.Signature a ≠ manager.Signature b := by
  cases h1 : manager.signatures a with
  | none => simp [h1] at ha
  | some i =>
    cases h2 : manager.signatures b with
    | none => simp [h2] at hb
    | some j =>
      simp only [componentManager.Signature, h1, h2, Option.getD_some]
      intro hij
      subst hij
      exact hab (h.2 a b i h1 h2)

/-- The bits of an entity's signature after population calls: the bits it had, and the
bits of the component types attached to it by the calls. -/
theorem population_bits (cs : List WorldCall) :
    ∀ (w w' : world) (alive alive' : List Entity),
      (∀ c ∈ cs, WorldCall.isPopulation c = true) →
      w.calls alive cs = some (w', alive') →
      ∀ e i, i ∈ w'.signatureOf e ↔
        i ∈ w.signatureOf e ∨
          ∃ c, WorldCall.AttachComponent e c ∈ cs ∧ w.components.Signature c.Name = i := by
  induction cs with
  | nil =>
    intro w w' alive alive' _ h e i
    simp only [world.calls, Option.some.injEq, Prod.mk.injEq] at h
    obtain ⟨rfl, -⟩ := h
    simp
  | cons c cs ih =>
    intro w w' alive alive' hpop h e i
    have hc := hpop c (List.mem_cons_self _ _)
    have hcs : ∀ d ∈ cs, WorldCall.isPopulation d = true :=
      fun d hd => hpop d (List.mem_cons_of_mem _ hd)
    simp only [world.calls] at h
    cases hcall : w.call alive c with
    | none => simp [hcall] at h
    | some r =>
      obtain ⟨w1, a1⟩ := r
      simp only [hcall] at h
      have ih' := ih w1 w' a1 alive' hcs h e i
      cases c with
      | CreateEntity =>
        simp only [world.call] at hcall
        cases hce : w.CreateEntity with
        | none => simp [hce] at hcall
        | some r =>
          obtain ⟨w2, x⟩ := r
          simp only [hce, Option.some.injEq, Prod.mk.injEq] at hcall
          obtain ⟨rfl, -⟩ := hcall
          obtain ⟨hcomp, -, hsig, -, -⟩ := create_spec w w2 x hce
          rw [ih']
          simp [world.signatureOf, hsig, hcomp]
      | AttachComponent entity component =>
        simp only [world.call] at hcall
        cases hat : w.AttachComponent entity component with
        | none => simp [hat] at hcall
        | some w2 =>
          simp only [hat, Option.some.injEq, Prod.mk.injEq] at hcall
          obtain ⟨rfl, -⟩ := hcall
          obtain ⟨-, hcomp, hsig, -, -, -⟩ := attach_spec w w2 entity component hat
          have hS : ∀ n, w2.components.Signature n = w.components.Signature n := by
            intro n
            simp [componentManager.Signature, hcomp]
          rw [ih']
          have hsx : w2.signatureOf e =
              if e = entity then
                (w.signatureOf entity).Set (w.components.Signature component.Name)
              else w.signatureOf e := by
            show (w2.entities.signatures e).getD BitSet.new = _
            rw [hsig]
            by_cases hx : e = entity
            · simp [hx]
            · simp [hx, world.signatureOf]
          rw [hsx]
          simp only [hS, List.mem_cons, WorldCall.AttachComponent.injEq]
          by_cases hx : e = entity
          · subst hx
            simp only [if_true, BitSet.Set, Finset.mem_insert, true_and]
            constructor
            · rintro ((h1 | h1) | ⟨c, hc1, hc2⟩)
              · exact Or.inr ⟨component, Or.inl rfl, h1.symm⟩
              · exact Or.inl h1
              · exact Or.inr ⟨c, Or.inr hc1, hc2⟩
            · rintro (h1 | ⟨c, hc1 | hc1, hc2⟩)
              · exact Or.inl (Or.inr h1)
              · subst hc1; exact Or.inl (Or.inl hc2.symm)
              · exact Or.inr ⟨c, hc1, hc2⟩
          · simp only [hx, if_false, false_and, false_or]
      | RegisterComponent name => simp [WorldCall.isPopulation] at hc
      | RegisterSystem system components => simp [WorldCall.isPopulation] at hc
      | SignEntity entity components => simp [WorldCall.isPopulation] at hc
      | Destroy entity => simp [WorldCall.isPopulation] at hc

/-- C7: in a world where the distinct component types `A` and `B` are registered (among
other registrations of component types and of systems without subscribers) and a system
`s` without subscribers is then registered requiring `{A, B}`, after any sequence of
`CreateEntity` and `AttachComponent` calls that runs without a panic: an entity to which
only `A` components were attached is not in the subscriber list of `s`, and an entity to
which both an `A` and a `B` component were attached is in the list exactly once,
whatever else was attached to it or to other entities. -/
theorem both_components_subscribe_once (setup : List WorldCall) (A B s : String)
    (cs : List WorldCall) (w : world) (alive : List Entity)
    (hsetup : ∀ c ∈ setup, WorldCall.isRegistration c = true)
    (hA : WorldCall.RegisterComponent A ∈ setup)
    (hB : WorldCall.RegisterComponent B ∈ setup) (hAB : A ≠ B)
    (hcs : ∀ c ∈ cs, WorldCall.isPopulation c = true)
    (hrun : CreateWorld.calls []
      (setup ++ WorldCall.RegisterSystem (System.fresh s) [A, B] :: cs) =
        some (w, alive)) :
    ∃ subscribers, w.Subscribers s = some subscribers ∧
      ∀ e,
        ((∀ c, WorldCall.AttachComponent e c ∈ cs → c.Name = A) → e ∉ subscribers) ∧
        ((∃ a b, WorldCall.AttachComponent e a ∈ cs ∧ a.Name = A ∧
            WorldCall.AttachComponent e b ∈ cs ∧ b.Name = B) →
          subscribers.count e = 1) := by
  rw [world_calls_append] at hrun
  cases hrun1 : CreateWorld.calls [] setup with
  | none => simp [hrun1] at hrun
  | some r1 =>
  obtain ⟨w1, a1⟩ := r1
  simp only [hrun1, Option.some_bind, world.calls, world.call] at hrun
  obtain ⟨hblank1, -⟩ := registration_blank setup _ _ _ _ hsetup blank_createWorld hrun1
  obtain ⟨hb, hsome⟩ := registration_bits setup _ _ _ _ hsetup hrun1
  have hbits : w1.components.Signature A ≠ w1.components.Signature B :=
    signature_ne w1.components A B (hb bitsDistinct_create)
      (hsome A (Or.inr hA)) (hsome B (Or.inr hB)) hAB
  have hw2c : (w1.RegisterSystem (System.fresh s) [A, B]).components = w1.components := by
    simp [world.RegisterSystem]
  have hw2e : (w1.RegisterSystem (System.fresh s) [A, B]).entities = w1.entities := by
    simp [world.RegisterSystem]
  have hw2s : (w1.RegisterSystem (System.fresh s) [A, B]).systems.systems s =
      some (System.fresh s) := by
    simp [world.RegisterSystem, systemManager.Register, systemManager.Use, mapSet,
      System.fresh]
  have hw2r : (w1.RegisterSystem (System.fresh s) [A, B]).systems.signatures s =
      some {w1.components.Signature B, w1.components.Signature A} := by
    simp [world.RegisterSystem, systemManager.Register, systemManager.Use,
      componentManager.Sign, BitSet.Set, BitSet.new, System.fresh]
  have hblank : (w1.RegisterSystem (System.fresh s) [A, B]).Blank := by
    constructor
    · intro e
      rw [hw2e]
      exact hblank1.1 e
    · intro name system hsys
      have hsys' : mapSet w1.systems.systems s (System.fresh s) name = some system := by
        simpa [world.RegisterSystem, systemManager.Register, systemManager.Use,
          System.fresh] using hsys
      unfold mapSet at hsys'
      by_cases hn : name = s
      · simp only [hn, if_true, Option.some.injEq] at hsys'
        rw [← hsys']
        rfl
      · simp only [hn, if_false] at hsys'
        exact hblank1.2 name system hsys'
  obtain ⟨hm, hsig, hdom, hcomp⟩ :=
    population_matched cs _ w a1 alive hcs (matched_of_blank _ hblank) hrun
  have hbit := population_bits cs _ w a1 alive hcs hrun
  have hsys : (w.systems.systems s).isSome = true := by
    rw [hdom s, hw2s]
    rfl
  cases hsystem : w.systems.systems s with
  | none => simp [hsystem] at hsys
  | some system =>
    have hreq : w.systems.signatures s =
        some {w1.components.Signature B, w1.components.Signature A} := by
      rw [hsig, hw2r]
    obtain ⟨hnd, hmem⟩ := hm s system _ hsystem hreq (Finset.insert_nonempty _ _)
    refine ⟨system.entities, by simp [world.Subscribers, world.System, systemManager.Read,
      hsystem, SystemAccess.Entities], ?_⟩
    intro e
    have hold : ∀ i, i ∉ (w1.RegisterSystem (System.fresh s) [A, B]).signatureOf e := by
      intro i
      simp [world.signatureOf, hblank.1 e, BitSet.new]
    constructor
    · intro honly hin
      have hsub := (hmem e).mp hin
      have hB' : w1.components.Signature B ∈ w.signatureOf e :=
        hsub (Finset.mem_insert_self _ _)
      rcases (hbit e _).mp hB' with h1 | ⟨c, hc1, hc2⟩
      · exact hold _ h1
      · rw [hw2c, honly c hc1] at hc2
        exact hbits hc2
    · rintro ⟨a, b, ha1, ha2, hb1, hb2⟩
      apply List.count_eq_one_of_mem hnd
      rw [hmem e]
      intro i hi
      rw [Finset.mem_insert, Finset.mem_singleton] at hi
      rw [hbit e i]
      right
      rcases hi with hi | hi
      · exact ⟨b, hb1, by rw [hw2c, hb2, hi]⟩
      · exact ⟨a, ha1, by rw [hw2c, ha2, hi]⟩

/-- A run of C7: `"position"` and `"velocity"` are registered, `"physics"` requires both;
entity `0` gets both, entity `1` only `"position"`. -/
theorem both_components_subscribe_once_witness :
    ∃ w alive,
      CreateWorld.calls []
        ([WorldCall.RegisterComponent "position", WorldCall.RegisterComponent "velocity"] ++
          WorldCall.RegisterSystem (System.fresh "physics") ["position", "velocity"] ::
            [WorldCall.CreateEntity, WorldCall.AttachComponent 0 ⟨"position", 1⟩,
              WorldCall.CreateEntity, WorldCall.AttachComponent 1 ⟨"position", 2⟩,
              WorldCall.AttachComponent 0 ⟨"velocity", 3⟩]) = some (w, alive) ∧
      ∃ subscribers, w.Subscribers "physics" = some subscribers ∧
        1 ∉ subscribers ∧ subscribers.count 0 = 1 := by
  have f0 : (CreateWorld.calls []
        ([WorldCall.RegisterComponent "position", WorldCall.RegisterComponent "velocity"] ++
          WorldCall.RegisterSystem (System.fresh "physics") ["position", "velocity"] ::
            [WorldCall.CreateEntity, WorldCall.AttachComponent 0 ⟨"position", 1⟩,
              WorldCall.CreateEntity, WorldCall.AttachComponent 1 ⟨"position", 2⟩,
              WorldCall.AttachComponent 0 ⟨"velocity", 3⟩])).isSome = true := by decide!
  cases h : CreateWorld.calls []
        ([WorldCall.RegisterComponent "position", WorldCall.RegisterComponent "velocity"] ++
          WorldCall.RegisterSystem (System.fresh "physics") ["position", "velocity"] ::
            [WorldCall.CreateEntity, WorldCall.AttachComponent 0 ⟨"position", 1⟩,
              WorldCall.CreateEntity, WorldCall.AttachComponent 1 ⟨"position", 2⟩,
              WorldCall.AttachComponent 0 ⟨"velocity", 3⟩]) with
  | none => rw [h] at f0; exact absurd f0 (by decide)
  | some r =>
    obtain ⟨subscribers, hsub, hall⟩ :=
      both_components_subscribe_once
        [WorldCall.RegisterComponent "position", WorldCall.RegisterComponent "velocity"]
        "position" "velocity" "physics"
        [WorldCall.CreateEntity, WorldCall.AttachComponent 0 ⟨"position", 1⟩,
          WorldCall.CreateEntity, WorldCall.AttachComponent 1 ⟨"position", 2⟩,
          WorldCall.AttachComponent 0 ⟨"velocity", 3⟩] r.1 r.2
        (by decide) (by simp) (by simp) (by decide) (by decide) h
    refine ⟨r.1, r.2, rfl, subscribers, hsub, ?_, ?_⟩
    · apply (hall 1).1
      intro c hc
      simp at hc
      rw [hc]
    · apply (hall 0).2
      exact ⟨⟨"position", 1⟩, ⟨"velocity", 3⟩, by simp, rfl, by simp, rfl⟩

/-! ## Reuse of a handle -/

/-- C6, evaluated on the code: entity `0` gets a `"transform"` component and is
destroyed; `remove` deletes slot `0` but keeps `entityIndexMap[0] = 0`.  Entity `1` is
created and its component is stored in the free slot `0`.  After 9998 further
`CreateEntity` calls the next one returns the handle `0` again: its signature is nil, but
`Component(0, "transform")` is the component of entity `1`, not nil. -/
theorem reused_handle_reads_foreign_component :
    (CreateWorld.calls []
      ([WorldCall.RegisterComponent "transform", WorldCall.CreateEntity,
          WorldCall.AttachComponent 0 ⟨"transform", 10⟩, WorldCall.Destroy 0,
          WorldCall.CreateEntity, WorldCall.AttachComponent 1 ⟨"transform", 11⟩] ++
        List.replicate 9998 WorldCall.CreateEntity ++ [WorldCall.CreateEntity])).bind
      (fun r => (r.2.head?).bind (fun entity =>
        (r.1.Entity entity).bind (fun signature =>
          (r.1.Component entity "transform").map (fun component =>
            (entity, signature, component))))) =
      some (0, none, some ⟨"transform", 11⟩) := by
  decide!

/-! ## Registration order and signatures -/

theorem registerAll_cons (manager : componentManager) (name : String) (names : List String) :
    manager.RegisterAll (name :: names) = (manager.Register name).RegisterAll names := rfl

theorem registerAll_next (names : List String) :
    ∀ manager : componentManager,
      (manager.RegisterAll names).next = manager.next + names.length := by
  induction names with
  | nil => intro manager; rfl
  | cons name names ih =>
    intro manager
    rw [registerAll_cons, ih]
    simp only [componentManager.Register, List.length_cons]
    omega

theorem signature_register_self (manager : componentManager) (name : String) :
    (manager.Register name).Signature name = manager.next := by
  simp [componentManager.Register, componentManager.Signature, mapSet]

theorem signature_register_other (manager : componentManager) (name other : String)
    (h : other ≠ name) :
    (manager.Register name).Signature other = manager.Signature other := by
  simp [componentManager.Register, componentManager.Signature, mapSet, h]

theorem signature_registerAll_of_not_mem (names : List String) :
    ∀ (manager : componentManager) (name : String), name ∉ names →
      (manager.RegisterAll names).Signature name = manager.Signature name := by
  induction names with
  | nil => intro manager name _; rfl
  | cons n names ih =>
    intro manager name h
    rw [registerAll_cons, ih _ _ (fun hm => h (List.mem_cons_of_mem _ hm))]
    exact signature_register_other _ _ _ (fun he => h (he ▸ List.mem_cons_self _ _))

theorem signature_after_own_registration (names : List String) :
    ∀ (manager : componentManager) (k : Nat) (hk : k < names.length),
      (manager.RegisterAll (names.take (k + 1))).Signature (names.get ⟨k, hk⟩) =
        manager.next + k := by
  induction names with
  | nil => intro manager k hk; simp at hk
  | cons n names ih =>
    intro manager k hk
    cases k with
    | zero =>
      simp only [List.take_succ_cons, List.take_zero, List.get_cons_zero]
      exact signature_register_self manager n
    | succ k =>
      have hk' : k < names.length := by simpa using hk
      simp only [List.take_succ_cons, List.get_cons_succ, registerAll_cons]
      rw [ih (manager.Register n) k hk']
      simp only [componentManager.Register]
      omega

theorem signature_when_not_registered_again (names : List String) :
    ∀ (manager : componentManager) (k : Nat) (hk : k < names.length),
      names.get ⟨k, hk⟩ ∉ names.drop (k + 1) →
      (manager.RegisterAll names).Signature (names.get ⟨k, hk⟩) = manager.next + k := by
  induction names with
  | nil => intro manager k hk; simp at hk
  | cons n names ih =>
    intro manager k hk hnot
    cases k with
    | zero =>
      have hg : (n :: names).get ⟨0, hk⟩ = n := rfl
      rw [hg] at hnot ⊢
      simp only [List.drop_succ_cons, List.drop_zero] at hnot
      rw [registerAll_cons, signature_registerAll_of_not_mem names _ n hnot]
      exact signature_register_self manager n
    | succ k =>
      have hk' : k < names.length := by simpa using hk
      have hg : (n :: names).get ⟨k + 1, hk⟩ = names.get ⟨k, hk'⟩ := rfl
      rw [hg] at hnot ⊢
      simp only [List.drop_succ_cons] at hnot
      rw [registerAll_cons, ih (manager.Register n) k hk' hnot]
      simp only [componentManager.Register]
      omega

/-- C11: starting from `CreateComponentManager()`, right after the `k+1`-th `Register`
call the name it registered has bit index `k` (the first `0`, the second `1`, ...); the
counter equals the number of calls, so no index is handed out twice; and the name keeps
the index `k` to the end when it is not registered again by a later call. -/
theorem register_assigns_indices_in_order (names : List String) (k : Nat)
    (hk : k < names.length) :
    (CreateComponentManager.RegisterAll (names.take (k + 1))).Signature
        (names.get ⟨k, hk⟩) = k ∧
    (CreateComponentManager.RegisterAll (names.take (k + 1))).next = k + 1 ∧
    (CreateComponentManager.RegisterAll names).next = names.length ∧
    (names.get ⟨k, hk⟩ ∉ names.drop (k + 1) →
      (CreateComponentManager.RegisterAll names).Signature (names.get ⟨k, hk⟩) = k) := by
  refine ⟨?_, ?_, ?_, ?_⟩
  · rw [signature_after_own_registration names CreateComponentManager k hk]
    simp [CreateComponentManager]
  · rw [registerAll_next]
    simp only [CreateComponentManager, List.length_take]
    omega
  · rw [registerAll_next]
    simp [CreateComponentManager]
  · intro hnot
    rw [signature_when_not_registered_again names CreateComponentManager k hk hnot]
    simp [CreateComponentManager]

/-- A run of C11: of `"position"`, `"velocity"`, `"colour"` the second name gets bit
index `1` and keeps it. -/
theorem register_assigns_indices_in_order_witness :
    (CreateComponentManager.RegisterAll
        (["position", "velocity", "colour"].take (1 + 1))).Signature
        (["position", "velocity", "colour"].get ⟨1, by decide⟩) = 1 ∧
    (CreateComponentManager.RegisterAll
        (["position", "velocity", "colour"].take (1 + 1))).next = 1 + 1 ∧
    (CreateComponentManager.RegisterAll ["position", "velocity", "colour"]).next =
      ["position", "velocity", "colour"].length ∧
    (CreateComponentManager.RegisterAll ["position", "velocity", "colour"]).Signature
        (["position", "velocity", "colour"].get ⟨1, by decide⟩) = 1 :=
  let h := register_assigns_indices_in_order ["position", "velocity", "colour"] 1
    (by decide)
  ⟨h.1, h.2.1, h.2.2.1, h.2.2.2 (by decide)⟩

theorem mem_foldl_set (manager : componentManager) (names : List String) :
    ∀ (acc : BitSet) (i : Nat),
      i ∈ names.foldl (fun signature name => signature.Set (manager.Signature name)) acc ↔
        i ∈ acc ∨ ∃ n ∈ names, manager.Signature n = i := by
  induction names with
  | nil => intro acc i; simp
  | cons n names ih =>
    intro acc i
    rw [List.foldl_cons, ih]
    simp only [BitSet.Set, Finset.mem_insert, List.mem_cons, exists_eq_or_imp]
    constructor
    · rintro ((h | h) | h)
      · exact Or.inr (Or.inl h.symm)
      · exact Or.inl h
      · exact Or.inr (Or.inr h)
    · rintro (h | h | h)
      · exact Or.inl (Or.inr h)
      · exact Or.inl (Or.inl h.symm)
      · exact Or.inr h

/-- C18: for every list of names, the bits set in `Sign(names...)` are exactly the bit
indices `Signature(n)` of the names `n` of the list, and `Sign()` of no name is the
empty signature. -/
theorem sign_sets_exactly_the_bits (manager : componentManager) (names : List String) :
    (∀ i, i ∈ manager.Sign names ↔ ∃ n ∈ names, manager.Signature n = i) ∧
    manager.Sign [] = BitSet.new := by
  refine ⟨?_, rfl⟩
  intro i
  unfold componentManager.Sign
  rw [mem_foldl_set]
  simp [BitSet.new]

/-! ## Limits of the entity manager -/

theorem create_eq_none_iff (m : entityManager) : m.Create = none ↔ m.available = [] := by
  unfold entityManager.Create
  cases m.available with
  | nil => simp
  | cons next rest => simp

theorem pool_length_nat : CreateEntityManager.available.length = 10000 := by
  rw [available_init, List.length_map, List.length_range]
  rfl

/-- C12, as stated, fails: after 10000 `Create` calls from `CreateEntityManager()` the
pool is empty and `Living()` is `MaxEntities`; the next `Create` does not return (the
index expression `available[0]` panics), so no error is reported to the caller. -/
theorem create_on_empty_pool_panics :
    ∃ m alive,
      CreateEntityManager.calls [] (List.replicate 10000 EntityCall.Create) =
        some (m, alive) ∧
      m.available = [] ∧ m.Living = (MaxEntities : Int) ∧ m.Create = none := by
  have hk : 10000 ≤ CreateEntityManager.available.length := by
    rw [pool_length_nat]
  have hk' : CreateEntityManager.available.length ≤ 10000 := by
    rw [pool_length_nat]
  have hdrop : CreateEntityManager.available.drop 10000 = [] :=
    List.drop_eq_nil_of_le hk'
  have hrun := calls_replicate_Create 10000 CreateEntityManager [] hk
  refine ⟨{ CreateEntityManager with
            available := CreateEntityManager.available.drop 10000,
            living := CreateEntityManager.living + ((10000 : Nat) : Int) },
    (CreateEntityManager.available.take 10000).reverse ++ [], hrun, ?_, ?_, ?_⟩
  · dsimp only
    exact hdrop
  · show CreateEntityManager.living + ((10000 : Nat) : Int) = (MaxEntities : Int)
    have h0 : CreateEntityManager.living = 0 := rfl
    have hm : (MaxEntities : Int) = 10000 := rfl
    rw [h0, hm]
    rfl
  · rw [create_eq_none_iff]
    dsimp only
    exact hdrop

/-- C12, amended: in every run of `Create` and `Destroy` calls from
`CreateEntityManager()`, `Create` panics (it returns nothing) exactly when the pool is
empty, and the pool is empty exactly when `Living()` equals `MaxEntities`. -/
theorem create_panics_exactly_on_empty_pool (cs : List EntityCall) (m : entityManager)
    (alive : List Entity) (hrun : CreateEntityManager.calls [] cs = some (m, alive)) :
    (m.Create = none ↔ m.available = []) ∧
    (m.available = [] ↔ m.Living = (MaxEntities : Int)) := by
  refine ⟨create_eq_none_iff m, ?_⟩
  have hb := calls_balance cs _ _ _ _ hrun
  have hl := pool_length
  have h0 : CreateEntityManager.living = 0 := rfl
  unfold entityManager.Living
  constructor
  · intro h
    rw [h] at hb
    simp only [List.length_nil, Nat.cast_zero] at hb
    omega
  · intro h
    have : (m.available.length : Int) = 0 := by omega
    exact List.length_eq_zero.mp (by exact_mod_cast this)

/-- A run of C12's amended statement: the manager after 10000 `Create` calls. -/
theorem create_panics_exactly_on_empty_pool_witness :
    (entityManager.Create
        { CreateEntityManager with
          available := CreateEntityManager.available.drop 10000
          living := CreateEntityManager.living + ((10000 : Nat) : Int) } = none ↔
      entityManager.available
        { CreateEntityManager with
          available := CreateEntityManager.available.drop 10000
          living := CreateEntityManager.living + ((10000 : Nat) : Int) } = []) ∧
    (entityManager.available
        { CreateEntityManager with
          available := CreateEntityManager.available.drop 10000
          living := CreateEntityManager.living + ((10000 : Nat) : Int) } = [] ↔
      entityManager.Living
        { CreateEntityManager with
          available := CreateEntityManager.available.drop 10000
          living := CreateEntityManager.living + ((10000 : Nat) : Int) } =
        (MaxEntities : Int)) :=
  create_panics_exactly_on_empty_pool (List.replicate 10000 EntityCall.Create) _ _
    (calls_replicate_Create 10000 CreateEntityManager []
      (by
        have h := pool_length
        have hm : (MaxEntities : Int) = 10000 := rfl
        omega))

/-- C13, as stated, fails: `Destroy(5)` on the new manager, where handle `5` was never
created, returns normally, drops `Living()` from `0` to `-1` and grows the pool from
`10000` to `10001` handles, the last of them `5`. -/
theorem destroy_of_dead_handle_is_accepted :
    (CreateEntityManager.Living, CreateEntityManager.available.length) = (0, 10000) ∧
    (CreateEntityManager.Destroy 5).map
        (fun m => (m.Living, m.available.length, m.available.getLast?)) =
      some (-1, 10001, some 5) := by
  constructor <;> decide!

/-- C13, amended: `Destroy(e)` checks nothing about `e` being alive.  For every handle
inside `[0, MaxEntities)`, alive or not, it returns normally, appends `e` to the pool,
makes the signature of `e` nil and decrements the living count; for a handle outside
`[0, MaxEntities)` it panics on the index into the signature array. -/
theorem destroy_accepts_every_handle_in_range (m : entityManager) (e : Entity) :
    (inRange e = true →
      ∃ m', m.Destroy e = some m' ∧ m'.available = m.available ++ [e] ∧
        m'.Living = m.Living - 1 ∧ m'.Read e = some none) ∧
    (inRange e = false → m.Destroy e = none) := by
  constructor
  · intro hr
    refine ⟨{ available := m.available ++ [e]
              living := m.living - 1
              signatures := fun x => if x = e then none else m.signatures x },
      by simp only [entityManager.Destroy, hr, if_true], rfl, rfl, ?_⟩
    simp [entityManager.Read, hr]
  · intro hr
    simp [entityManager.Destroy, hr]

/-- A run of C13's amended statement: the never created handle `5` on the new manager,
and the handle `-1` outside the range. -/
theorem destroy_accepts_every_handle_in_range_witness :
    (∃ m', CreateEntityManager.Destroy 5 = some m' ∧
        m'.available = CreateEntityManager.available ++ [5] ∧
        m'.Living = CreateEntityManager.Living - 1 ∧ m'.Read 5 = some none) ∧
    CreateEntityManager.Destroy (-1) = none :=
  ⟨(destroy_accepts_every_handle_in_range CreateEntityManager 5).1 (by decide),
   (destroy_accepts_every_handle_in_range CreateEntityManager (-1)).2 (by decide)⟩

theorem inRange_of_mem_pool (e : Entity) (h : e ∈ CreateEntityManager.available) :
    inRange e = true := by
  rw [available_init] at h
  simp only [List.mem_map, List.mem_range] at h
  obtain ⟨n, hn, rfl⟩ := h
  simp only [inRange, Int.ofNat_eq_coe, Bool.and_eq_true, decide_eq_true_eq]
  exact ⟨Int.natCast_nonneg n, Int.ofNat_lt.mpr hn⟩

theorem sign_spec (m m' : entityManager) (e : Entity) (signature : Option BitSet)
    (h : m.Sign e signature = some m') :
    inRange e = true ∧ m'.available = m.available ∧ m'.living = m.living ∧
    m'.signatures = fun x => if x = e then signature else m.signatures x := by
  unfold entityManager.Sign at h
  by_cases hr : inRange e = true
  · simp only [hr, if_true, Option.some.injEq] at h
    subst h
    exact ⟨hr, rfl, rfl, rfl⟩
  · simp [hr] at h

theorem destroy_spec (m m' : entityManager) (e : Entity) (h : m.Destroy e = some m') :
    inRange e = true ∧ m'.available = m.available ++ [e] ∧ m'.living = m.living - 1 ∧
    m'.signatures = fun x => if x = e then none else m.signatures x := by
  unfold entityManager.Destroy at h
  by_cases hr : inRange e = true
  · simp only [hr, if_true, Option.some.injEq] at h
    subst h
    exact ⟨hr, rfl, rfl, rfl⟩
  · simp [hr] at h

theorem call_handlesInRange (w w' : world) (alive alive' : List Entity) (c : WorldCall)
    (hinv : w.HandlesInRange alive) (h : w.call alive c = some (w', alive')) :
    w'.HandlesInRange alive' := by
  obtain ⟨hav, hal⟩ := hinv
  cases c with
  | RegisterComponent name =>
    simp only [world.call, Option.some.injEq, Prod.mk.injEq] at h
    obtain ⟨rfl, rfl⟩ := h
    exact ⟨hav, hal⟩
  | RegisterSystem system components =>
    simp only [world.call, Option.some.injEq, Prod.mk.injEq] at h
    obtain ⟨rfl, rfl⟩ := h
    have he : (w.RegisterSystem system components).entities = w.entities := by
      unfold world.RegisterSystem
      split <;> rfl
    exact ⟨by rw [he]; exact hav, hal⟩
  | CreateEntity =>
    simp only [world.call] at h
    cases hce : w.CreateEntity with
    | none => simp [hce] at h
    | some r =>
      obtain ⟨w2, x⟩ := r
      simp only [hce, Option.some.injEq, Prod.mk.injEq] at h
      obtain ⟨rfl, rfl⟩ := h
      obtain ⟨-, -, -, havail, -⟩ := create_spec w w2 x hce
      rw [havail] at hav
      refine ⟨fun e he => hav e (List.mem_cons_of_mem _ he), ?_⟩
      intro e he
      rcases List.mem_cons.mp he with rfl | he
      · exact hav _ (List.mem_cons_self _ _)
      · exact hal e he
  | AttachComponent entity component =>
    simp only [world.call] at h
    cases hat : w.AttachComponent entity component with
    | none => simp [hat] at h
    | some w2 =>
      simp only [hat, Option.some.injEq, Prod.mk.injEq] at h
      obtain ⟨rfl, rfl⟩ := h
      obtain ⟨-, -, -, havail, -, -⟩ := attach_spec w w2 entity component hat
      exact ⟨by rw [havail]; exact hav, hal⟩
  | SignEntity entity components =>
    simp only [world.call, world.SignEntity] at h
    cases hs : w.entities.Sign entity (some (w.components.Sign components)) with
    | none => simp [hs] at h
    | some m' =>
      simp only [hs, Option.some.injEq, Prod.mk.injEq] at h
      obtain ⟨rfl, rfl⟩ := h
      obtain ⟨-, havail, -, -⟩ := sign_spec _ _ _ _ hs
      exact ⟨by show ∀ e ∈ m'.available, _; rw [havail]; exact hav, hal⟩
  | Destroy entity =>
    simp only [world.call, world.Destroy] at h
    cases hd : w.entities.Destroy entity with
    | none => simp [hd] at h
    | some m' =>
      simp only [hd, Option.some.injEq, Prod.mk.injEq] at h
      obtain ⟨rfl, rfl⟩ := h
      obtain ⟨hr, havail, -, -⟩ := destroy_spec _ _ _ hd
      refine ⟨?_, fun e he => hal e (List.mem_filter.mp he).1⟩
      show ∀ e ∈ m'.available, _
      rw [havail]
      intro e he
      rcases List.mem_append.mp he with he | he
      · exact hav e he
      · rw [List.mem_singleton.mp he]; exact hr

theorem calls_handlesInRange (cs : List WorldCall) :
    ∀ (w w' : world) (alive alive' : List Entity), w.HandlesInRange alive →
      w.calls alive cs = some (w', alive') → w'.HandlesInRange alive' := by
  induction cs with
  | nil =>
    intro w w' alive alive' hinv h
    simp only [world.calls, Option.some.injEq, Prod.mk.injEq] at h
    obtain ⟨rfl, rfl⟩ := h
    exact hinv
  | cons c cs ih =>
    intro w w' alive alive' hinv h
    simp only [world.calls] at h
    cases hc : w.call alive c with
    | none => simp [hc] at h
    | some r =>
      obtain ⟨w1, a1⟩ := r
      simp only [hc] at h
      exact ih w1 w' a1 alive' (call_handlesInRange w w1 alive a1 c hinv hc) h

theorem handlesInRange_createWorld : CreateWorld.HandlesInRange [] :=
  ⟨fun e he => inRange_of_mem_pool e he, fun _ h => by simp at h⟩

/-- C14: for every entity `e` that is alive in a world reached from `CreateWorld()` by
any sequence of calls, `EntityManager.Destroy(e)` returns normally, makes `Read(e)` nil,
appends `e` to the pool, decreases `Living()` by exactly one and leaves `Read(x)` of
every other entity `x` as it was. -/
theorem destroy_of_live_entity (cs : List WorldCall) (w : world) (alive : List Entity)
    (e : Entity) (hrun : CreateWorld.calls [] cs = some (w, alive)) (he : e ∈ alive) :
    ∃ m', w.entities.Destroy e = some m' ∧ m'.Read e = some none ∧
      m'.available = w.entities.available ++ [e] ∧
      m'.Living = w.entities.Living - 1 ∧
      ∀ x, x ≠ e → m'.Read x = w.entities.Read x := by
  have hr : inRange e = true :=
    (calls_handlesInRange cs _ _ _ _ handlesInRange_createWorld hrun).2 e he
  refine ⟨{ available := w.entities.available ++ [e]
            living := w.entities.living - 1
            signatures := fun x => if x = e then none else w.entities.signatures x },
    by simp only [entityManager.Destroy, hr, if_true], ?_, rfl, rfl, ?_⟩
  · simp [entityManager.Read, hr]
  · intro x hx
    simp [entityManager.Read, hx]

/-- A run of C14: entity `0` is created and signed by an attached component, entity `1`
likewise; entity `0` is alive at the end. -/
theorem destroy_of_live_entity_witness :
    ∃ w alive,
      CreateWorld.calls []
        [WorldCall.RegisterComponent "position", WorldCall.CreateEntity,
          WorldCall.AttachComponent 0 ⟨"position", 1⟩, WorldCall.CreateEntity,
          WorldCall.AttachComponent 1 ⟨"position", 2⟩] = some (w, alive) ∧
      ∃ m', w.entities.Destroy 0 = some m' ∧ m'.Read 0 = some none ∧
        m'.available = w.entities.available ++ [0] ∧
        m'.Living = w.entities.Living - 1 ∧
        ∀ x, x ≠ 0 → m'.Read x = w.entities.Read x := by
  have f0 : (CreateWorld.calls []
        [WorldCall.RegisterComponent "position", WorldCall.CreateEntity,
          WorldCall.AttachComponent 0 ⟨"position", 1⟩, WorldCall.CreateEntity,
          WorldCall.AttachComponent 1 ⟨"position", 2⟩]).map (fun r => r.2) =
      some [1, 0] := by decide!
  cases h : CreateWorld.calls []
        [WorldCall.RegisterComponent "position", WorldCall.CreateEntity,
          WorldCall.AttachComponent 0 ⟨"position", 1⟩, WorldCall.CreateEntity,
          WorldCall.AttachComponent 1 ⟨"position", 2⟩] with
  | none => rw [h] at f0; exact absurd f0 (by decide)
  | some r =>
    rw [h] at f0
    simp only [Option.map_some', Option.some.injEq] at f0
    exact ⟨r.1, r.2, rfl,
      destroy_of_live_entity _ r.1 r.2 0 h (by rw [f0]; decide)⟩

/-! ## Reads and repeated attachment -/

/-- C15, evaluated on the code: with `"position"` registered and attached to entity `0`
only, `Read(1, "position")` is not nil: entity `1` has no entry in `entityIndexMap`, the
map read yields slot `0`, and the component of entity `0` is returned; likewise through
`World.Component` for the living entity `1`. -/
theorem read_of_absent_entity_returns_slot_zero :
    ((CreateComponentManager.Register "position").Attach 0 "position" ⟨"position", 7⟩).bind
        (fun m => m.Read 1 "position") = some (some ⟨"position", 7⟩) ∧
    (CreateWorld.calls []
        [WorldCall.RegisterComponent "position", WorldCall.CreateEntity,
          WorldCall.AttachComponent 0 ⟨"position", 7⟩, WorldCall.CreateEntity]).bind
        (fun r => r.1.Component 1 "position") = some (some ⟨"position", 7⟩) := by
  constructor <;> decide!

/-- C16, as stated, fails: attaching a second `"position"` component to entity `0` does
not fail; the size of the store goes from `1` to `2`, slot `1` becomes occupied next to
slot `0`, and the read returns the second component. -/
theorem attach_twice_appends_second_slot :
    ((CreateComponentManager.Register "position").Attach 0 "position" ⟨"position", 1⟩).bind
        (fun m => (m.components "position").map
          (fun pack => (pack.size, pack.occupied 0, pack.occupied 1))) =
      some (1, true, false) ∧
    (((CreateComponentManager.Register "position").Attach 0 "position" ⟨"position", 1⟩).bind
        (fun m => m.Attach 0 "position" ⟨"position", 2⟩)).bind
        (fun m => (m.components "position").map
          (fun pack => (pack.size, pack.occupied 0, pack.occupied 1))) =
      some (2, true, true) ∧
    (((CreateComponentManager.Register "position").Attach 0 "position" ⟨"position", 1⟩).bind
        (fun m => m.Attach 0 "position" ⟨"position", 2⟩)).bind
        (fun m => m.Read 0 "position") = some (some ⟨"position", 2⟩) := by
  decide

theorem filled_empty : componentEntityMap.empty.Filled := by
  refine ⟨le_refl _, ?_, ?_⟩
  · intro i
    simp only [componentEntityMap.occupied, componentEntityMap.empty, Option.isSome_none]
    constructor
    · intro h; exact absurd h (by decide)
    · intro h; omega
  · intro e j h
    simp [componentEntityMap.empty] at h

theorem filled_insert (pack : componentEntityMap) (entity : Entity) (component : Component)
    (h : pack.Filled) : (pack.insert entity component).Filled := by
  obtain ⟨hsize, hocc, hidx⟩ := h
  refine ⟨?_, ?_, ?_⟩
  · simp only [componentEntityMap.insert]
    omega
  · intro i
    have ho := hocc i
    simp only [componentEntityMap.occupied] at ho
    simp only [componentEntityMap.occupied, componentEntityMap.insert, mapSet]
    by_cases hi : i = pack.size
    · subst hi
      simp
      omega
    · simp only [hi, if_false]
      rw [ho]
      omega
  · intro e j hj
    simp only [componentEntityMap.insert, mapSet] at hj ⊢
    by_cases he : e = entity
    · simp only [he, if_true, Option.some.injEq] at hj
      omega
    · simp only [he, if_false] at hj
      have := hidx e j hj
      omega

theorem filled_inserts (items : List (Entity × Component)) :
    ∀ pack : componentEntityMap, pack.Filled →
      (pack.calls (items.map (fun p => StoreCall.insert p.1 p.2))).Filled := by
  induction items with
  | nil => intro pack h; simpa [componentEntityMap.calls] using h
  | cons p items ih =>
    intro pack h
    have h2 := ih (pack.insert p.1 p.2) (filled_insert pack p.1 p.2 h)
    simpa [componentEntityMap.calls, componentEntityMap.call] using h2

/-- C16, amended: in a store from which nothing was removed (reached from the empty
store by insert calls only), attaching a component of that registered type to an entity,
also to one that already holds a component of the type, does not fail: the component is
stored in a new slot whose index is the old size, the size grows by one, the entity's
index entry points to the new slot, so that `Read` returns the new component, and every
other slot keeps its content; the slot the entity held before stays occupied with its
old content, so the entity then owns a second slot. -/
theorem attach_always_appends (manager : componentManager) (entity : Entity)
    (name : String) (component : Component) (pack : componentEntityMap)
    (items : List (Entity × Component))
    (hreg : manager.components name = some pack)
    (hitems : pack =
      componentEntityMap.empty.calls (items.map (fun p => StoreCall.insert p.1 p.2))) :
    ∃ manager' pack',
      manager.Attach entity name component = some manager' ∧
      manager'.components name = some pack' ∧
      manager'.Read entity name = some (some component) ∧
      pack'.size = pack.size + 1 ∧
      pack'.entityIndexMap entity = some pack.size ∧
      pack.occupied pack.size = false ∧
      pack'.occupied pack.size = true ∧
      (∀ i, i ≠ pack.size → pack'.entityComponents i = pack.entityComponents i) ∧
      (∀ i, pack.occupied i = true → pack'.entityComponents i = pack.entityComponents i) ∧
      (∀ j, pack.entityIndexMap entity = some j →
        j ≠ pack.size ∧ pack.occupied j = true ∧ pack'.occupied j = true ∧
          pack'.entityComponents j = pack.entityComponents j) := by
  obtain ⟨hsize, hocc, hidx⟩ : pack.Filled := by
    rw [hitems]
    exact filled_inserts items _ filled_empty
  have hnew : pack.occupied pack.size = false := by
    cases h : pack.occupied pack.size with
    | false => rfl
    | true =>
      have := (hocc pack.size).mp h
      omega
  have hother : ∀ i, i ≠ pack.size →
      (pack.insert entity component).entityComponents i = pack.entityComponents i := by
    intro i hi
    simp [componentEntityMap.insert, mapSet, hi]
  refine ⟨{ manager with
            components := mapSet manager.components name (pack.insert entity component) },
    pack.insert entity component, ?_, ?_, ?_, rfl, ?_, hnew, ?_, hother, ?_, ?_⟩
  · simp [componentManager.Attach, hreg]
  · simp [mapSet]
  · simp [componentManager.Read, mapSet, componentEntityMap.read, componentEntityMap.insert]
  · simp [componentEntityMap.insert, mapSet]
  · simp [componentEntityMap.occupied, componentEntityMap.insert, mapSet]
  · intro i hi
    apply hother
    intro heq
    rw [heq, hnew] at hi
    exact absurd hi (by decide)
  · intro j hj
    have hr := hidx entity j hj
    have hne : j ≠ pack.size := by omega
    have hoj : pack.occupied j = true := (hocc j).mpr hr
    refine ⟨hne, hoj, ?_, hother j hne⟩
    simp only [componentEntityMap.occupied] at hoj ⊢
    rw [hother j hne]
    exact hoj

/-- A run of C16's amended statement: the store of `"position"` holds one component of
entity `0`, in slot `0`, when a second one is attached to it; afterwards the slots `0`
and `1` are both occupied. -/
theorem attach_always_appends_witness :
    ∃ manager' pack',
      componentManager.Attach
          { CreateComponentManager.Register "position" with
            components := mapSet (CreateComponentManager.Register "position").components
              "position" (componentEntityMap.empty.insert 0 ⟨"position", 1⟩) }
          0 "position" ⟨"position", 2⟩ = some manager' ∧
      manager'.components "position" = some pack' ∧
      manager'.Read 0 "position" = some (some ⟨"position", 2⟩) ∧
      pack'.size = 2 ∧
      pack'.entityIndexMap 0 = some 1 ∧
      (componentEntityMap.empty.insert 0 ⟨"position", 1⟩).occupied 1 = false ∧
      pack'.occupied 1 = true ∧
      pack'.occupied 0 = true ∧
      pack'.entityComponents 0 = some ⟨"position", 1⟩ := by
  obtain ⟨manager', pack', h1, h2, h3, h4, h5, h6, h7, -, -, h10⟩ :=
    attach_always_appends
      { CreateComponentManager.Register "position" with
        components := mapSet (CreateComponentManager.Register "position").components
          "position" (componentEntityMap.empty.insert 0 ⟨"position", 1⟩) }
      0 "position" ⟨"position", 2⟩
      (componentEntityMap.empty.insert 0 ⟨"position", 1⟩)
      [(0, ⟨"position", 1⟩)] (by simp [mapSet]) rfl
  obtain ⟨-, -, h11, h12⟩ := h10 0 (by simp [componentEntityMap.insert, mapSet,
    componentEntityMap.empty])
  refine ⟨manager', pack', h1, h2, h3, ?_, ?_, h6, h7, h11, ?_⟩
  · rw [h4]; rfl
  · rw [h5]; rfl
  · rw [h12]; rfl

/-! ## What `AttachComponent` stores -/

theorem holds_insert_self (pack : componentEntityMap) (entity : Entity)
    (component : Component) : (pack.insert entity component).Holds entity component :=
  ⟨pack.size, by simp [componentEntityMap.insert, mapSet],
    by simp [componentEntityMap.insert, mapSet],
    by simp [componentEntityMap.insert]⟩

theorem holds_insert_other (pack : componentEntityMap) (entity other : Entity)
    (component c : Component) (h : pack.Holds entity component) (hne : other ≠ entity) :
    (pack.insert other c).Holds entity component := by
  obtain ⟨i, h1, h2, h3⟩ := h
  refine ⟨i, ?_, ?_, ?_⟩
  · simp [componentEntityMap.insert, mapSet, Ne.symm hne, h1]
  · have hi : i ≠ pack.size := by omega
    simp [componentEntityMap.insert, mapSet, hi, h2]
  · simp only [componentEntityMap.insert]
    omega

theorem read_of_holds (pack : componentEntityMap) (entity : Entity) (component : Component)
    (h : pack.Holds entity component) : pack.read entity = some component := by
  obtain ⟨i, h1, h2, -⟩ := h
  simp [componentEntityMap.read, h1, h2]

/-- What a returning `AttachComponent` does to the component stores. -/
theorem attach_store_spec (w w' : world) (entity : Entity) (component : Component)
    (h : w.AttachComponent entity component = some w') :
    ∃ pack, w.components.components component.Name = some pack ∧
      w'.components.components =
        mapSet w.components.components component.Name (pack.insert entity component) := by
  unfold world.AttachComponent at h
  cases hc : w.components.components component.Name with
  | none => simp [componentManager.Attach, hc] at h
  | some pack =>
    refine ⟨pack, rfl, ?_⟩
    by_cases hr : inRange entity = true
    · simp only [componentManager.Attach, hc, entityManager.Read, entityManager.Sign, hr,
        if_true, Option.some.injEq] at h
      rw [← h]
    · simp [componentManager.Attach, hc, entityManager.Read, hr] at h

/-- `AttachComponent` returns when the component type is registered and the handle is
inside the bounds of the signature array. -/
theorem attach_returns (w : world) (entity : Entity) (component : Component)
    (hreg : (w.components.components component.Name).isSome = true)
    (hr : inRange entity = true) :
    ∃ w', w.AttachComponent entity component = some w' := by
  cases hc : w.components.components component.Name with
  | none => simp [hc] at hreg
  | some pack =>
    simp [world.AttachComponent, componentManager.Attach, hc, entityManager.Read,
      entityManager.Sign, hr]

theorem elsewhere_keeps_component (more : List WorldCall) :
    ∀ (w w' : world) (alive alive' : List Entity) (entity : Entity) (component : Component)
      (pack : componentEntityMap),
      (∀ d ∈ more, WorldCall.attachesElsewhere entity component.Name d = true) →
      w.components.components component.Name = some pack → pack.Holds entity component →
      w.calls alive more = some (w', alive') →
      ∃ pack', w'.components.components component.Name = some pack' ∧
        pack'.Holds entity component := by
  induction more with
  | nil =>
    intro w w' alive alive' entity component pack _ hp hh h
    simp only [world.calls, Option.some.injEq, Prod.mk.injEq] at h
    obtain ⟨rfl, -⟩ := h
    exact ⟨pack, hp, hh⟩
  | cons d more ih =>
    intro w w' alive alive' entity component pack hmore hp hh h
    have hd := hmore d (List.mem_cons_self _ _)
    have hrest : ∀ x ∈ more, WorldCall.attachesElsewhere entity component.Name x = true :=
      fun x hx => hmore x (List.mem_cons_of_mem _ hx)
    simp only [world.calls] at h
    cases hcall : w.call alive d with
    | none => simp [hcall] at h
    | some r =>
      obtain ⟨w1, a1⟩ := r
      simp only [hcall] at h
      cases d with
      | CreateEntity =>
        simp only [world.call] at hcall
        cases hce : w.CreateEntity with
        | none => simp [hce] at hcall
        | some r =>
          obtain ⟨w2, x⟩ := r
          simp only [hce, Option.some.injEq, Prod.mk.injEq] at hcall
          obtain ⟨rfl, -⟩ := hcall
          obtain ⟨hcomp, -, -, -, -⟩ := create_spec w w2 x hce
          exact ih w2 w' a1 alive' entity component pack hrest (by rw [hcomp]; exact hp) hh h
      | AttachComponent e c =>
        simp only [world.call] at hcall
        cases hat : w.AttachComponent e c with
        | none => simp [hat] at hcall
        | some w2 =>
          simp only [hat, Option.some.injEq, Prod.mk.injEq] at hcall
          obtain ⟨rfl, -⟩ := hcall
          obtain ⟨p, hp1, hp2⟩ := attach_store_spec w w2 e c hat
          simp only [WorldCall.attachesElsewhere, Bool.or_eq_true, decide_eq_true_eq] at hd
          by_cases hname : component.Name = c.Name
          · have hne : e ≠ entity := by
              rcases hd with hd | hd
              · exact hd
              · exact absurd hname.symm hd
            rw [← hname, hp] at hp1
            cases hp1
            refine ih w2 w' a1 alive' entity component (pack.insert e c) hrest ?_
              (holds_insert_other pack entity e component c hh hne) h
            rw [hp2]
            simp [mapSet, hname]
          · refine ih w2 w' a1 alive' entity component pack hrest ?_ hh h
            rw [hp2]
            simp [mapSet, hname, hp]
      | RegisterComponent name => simp [WorldCall.attachesElsewhere] at hd
      | RegisterSystem system components => simp [WorldCall.attachesElsewhere] at hd
      | SignEntity e components => simp [WorldCall.attachesElsewhere] at hd
      | Destroy e => simp [WorldCall.attachesElsewhere] at hd

/-- C17: for every world, every entity `e` inside the handle range and every component
`c` whose name is registered, `AttachComponent(e, c)` returns, after it
`Component(e, c.Name())` returns exactly `c`, and it still returns `c` after any further
`CreateEntity` calls and `AttachComponent` calls for other entities or for other
component types. -/
theorem attached_component_is_read_back (w : world) (alive : List Entity) (e : Entity)
    (c : Component) (more : List WorldCall)
    (hreg : (w.components.components c.Name).isSome = true) (hr : inRange e = true)
    (hmore : ∀ d ∈ more, WorldCall.attachesElsewhere e c.Name d = true) :
    ∃ w1, w.AttachComponent e c = some w1 ∧
      w1.Component e c.Name = some (some c) ∧
      ∀ w2 alive2, w1.calls alive more = some (w2, alive2) →
        w2.Component e c.Name = some (some c) := by
  obtain ⟨w1, h1⟩ := attach_returns w e c hreg hr
  obtain ⟨pack, hp1, hp2⟩ := attach_store_spec w w1 e c h1
  have hstore : w1.components.components c.Name = some (pack.insert e c) := by
    rw [hp2]
    simp [mapSet]
  refine ⟨w1, h1, ?_, ?_⟩
  · simp [world.Component, componentManager.Read, hstore,
      read_of_holds _ _ _ (holds_insert_self pack e c)]
  · intro w2 alive2 h2
    obtain ⟨pack', hp', hh'⟩ :=
      elsewhere_keeps_component more w1 w2 alive alive2 e c _ hmore hstore
        (holds_insert_self pack e c) h2
    simp [world.Component, componentManager.Read, hp', read_of_holds _ _ _ hh']

/-- A run of C17: `"position"` is attached to entity `0`, then to entity `1`. -/
theorem attached_component_is_read_back_witness :
    ∃ w1, (CreateWorld.RegisterComponent "position").AttachComponent 0 ⟨"position", 1⟩ =
        some w1 ∧
      w1.Component 0 "position" = some (some ⟨"position", 1⟩) ∧
      ∀ w2 alive2,
        w1.calls [] [WorldCall.AttachComponent 1 ⟨"position", 2⟩] = some (w2, alive2) →
        w2.Component 0 "position" = some (some ⟨"position", 1⟩) :=
  attached_component_is_read_back (CreateWorld.RegisterComponent "position") [] 0
    ⟨"position", 1⟩ [WorldCall.AttachComponent 1 ⟨"position", 2⟩]
    (by decide) (by decide) (by decide)

/-- C20: when `Entity(e)` reads `old` and the name of `c` is registered,
`AttachComponent(e, c)` returns, and afterwards `Entity(e)` is a signature whose set bits
are the bit `Signature(c.Name())` and the bits of `old` (none for a nil `old`), while
`Entity(x)` of every other entity `x` reads as before. -/
theorem attach_sets_the_component_bit (w : world) (e : Entity) (c : Component)
    (old : Option BitSet)
    (hreg : (w.components.components c.Name).isSome = true)
    (hold : w.Entity e = some old) :
    ∃ w1 signature, w.AttachComponent e c = some w1 ∧
      w1.Entity e = some (some signature) ∧
      signature = (old.getD BitSet.new).Set (w.components.Signature c.Name) ∧
      (∀ i, i ∈ signature ↔
        i = w.components.Signature c.Name ∨ i ∈ old.getD BitSet.new) ∧
      ∀ x, x ≠ e → w1.Entity x = w.Entity x := by
  have hr : inRange e = true := by
    unfold world.Entity entityManager.Read at hold
    by_cases hr : inRange e = true
    · exact hr
    · simp [hr] at hold
  have hsig : w.entities.signatures e = old := by
    simpa [world.Entity, entityManager.Read, hr] using hold
  obtain ⟨w1, h1⟩ := attach_returns w e c hreg hr
  obtain ⟨-, -, hs, -, -, -⟩ := attach_spec w w1 e c h1
  refine ⟨w1, (old.getD BitSet.new).Set (w.components.Signature c.Name), h1, ?_, rfl, ?_, ?_⟩
  · simp [world.Entity, entityManager.Read, hr, hs, world.signatureOf, hsig]
  · intro i
    simp [BitSet.Set]
  · intro x hx
    simp [world.Entity, entityManager.Read, hs, hx]

/-- A run of C20: entity `0`, whose signature is nil, gets the first registered
component type attached. -/
theorem attach_sets_the_component_bit_witness :
    ∃ w1 signature,
      (CreateWorld.RegisterComponent "position").AttachComponent 0 ⟨"position", 1⟩ =
        some w1 ∧
      w1.Entity 0 = some (some signature) ∧
      signature = ((none : Option BitSet).getD BitSet.new).Set
        ((CreateWorld.RegisterComponent "position").components.Signature "position") ∧
      (∀ i, i ∈ signature ↔
        i = (CreateWorld.RegisterComponent "position").components.Signature "position" ∨
          i ∈ (none : Option BitSet).getD BitSet.new) ∧
      ∀ x, x ≠ 0 → w1.Entity x = (CreateWorld.RegisterComponent "position").Entity x :=
  attach_sets_the_component_bit (CreateWorld.RegisterComponent "position") 0
    ⟨"position", 1⟩ none (by decide) (by decide)

/-! ## Systems without component names -/

theorem call_keeps_unsigned (w w' : world) (alive alive' : List Entity) (c : WorldCall)
    (s : String) (hc : WorldCall.leavesUnsigned s c = true)
    (hs : w.systems.signatures s = none) (h : w.call alive c = some (w', alive')) :
    w'.systems.signatures s = none := by
  cases c with
  | RegisterComponent name =>
    simp only [world.call, Option.some.injEq, Prod.mk.injEq] at h
    obtain ⟨rfl, -⟩ := h
    exact hs
  | RegisterSystem system components =>
    simp only [world.call, Option.some.injEq, Prod.mk.injEq] at h
    obtain ⟨rfl, -⟩ := h
    simp only [WorldCall.leavesUnsigned, Bool.or_eq_true, decide_eq_true_eq,
      List.isEmpty_iff] at hc
    unfold world.RegisterSystem
    by_cases hlen : components.length > 0
    · simp only [hlen, if_true, systemManager.Use, systemManager.Register]
      have hne : s ≠ system.Name := by
        rcases hc with hc | hc
        · exact fun h => hc h.symm
        · rw [hc] at hlen
          simp at hlen
      simp only [hne, if_false]
      exact hs
    · simp only [hlen, if_false, systemManager.Register]
      exact hs
  | CreateEntity =>
    simp only [world.call] at h
    cases hce : w.CreateEntity with
    | none => simp [hce] at h
    | some r =>
      obtain ⟨w2, x⟩ := r
      simp only [hce, Option.some.injEq, Prod.mk.injEq] at h
      obtain ⟨rfl, -⟩ := h
      obtain ⟨-, hsys, -, -, -⟩ := create_spec w w2 x hce
      rw [hsys]
      exact hs
  | AttachComponent entity component =>
    simp only [world.call] at h
    cases hat : w.AttachComponent entity component with
    | none => simp [hat] at h
    | some w2 =>
      simp only [hat, Option.some.injEq, Prod.mk.injEq] at h
      obtain ⟨rfl, -⟩ := h
      obtain ⟨-, -, -, -, -, hsys⟩ := attach_spec w w2 entity component hat
      rw [hsys]
      exact hs
  | SignEntity entity components =>
    simp only [world.call, world.SignEntity] at h
    cases hsg : w.entities.Sign entity (some (w.components.Sign components)) with
    | none => simp [hsg] at h
    | some m' =>
      simp only [hsg, Option.some.injEq, Prod.mk.injEq] at h
      obtain ⟨rfl, -⟩ := h
      exact hs
  | Destroy entity =>
    simp only [world.call, world.Destroy] at h
    cases hd : w.entities.Destroy entity with
    | none => simp [hd] at h
    | some m' =>
      simp only [hd, Option.some.injEq, Prod.mk.injEq] at h
      obtain ⟨rfl, -⟩ := h
      exact hs

theorem calls_keep_unsigned (cs : List WorldCall) (s : String) :
    ∀ (w w' : world) (alive alive' : List Entity),
      (∀ c ∈ cs, WorldCall.leavesUnsigned s c = true) →
      w.systems.signatures s = none → w.calls alive cs = some (w', alive') →
      w'.systems.signatures s = none := by
  induction cs with
  | nil =>
    intro w w' alive alive' _ hs h
    simp only [world.calls, Option.some.injEq, Prod.mk.injEq] at h
    obtain ⟨rfl, -⟩ := h
    exact hs
  | cons c cs ih =>
    intro w w' alive alive' hcs hs h
    simp only [world.calls] at h
    cases hc : w.call alive c with
    | none => simp [hc] at h
    | some r =>
      obtain ⟨w1, a1⟩ := r
      simp only [hc] at h
      exact ih w1 w' a1 alive'
        (fun d hd => hcs d (List.mem_cons_of_mem _ hd))
        (call_keeps_unsigned w w1 alive a1 c s (hcs c (List.mem_cons_self _ _)) hs hc) h

/-- A system whose name has no required signature keeps its subscriber list through
population calls. -/
theorem population_keeps_unsigned_subscribers (cs : List WorldCall) (s : String) :
    ∀ (w w' : world) (alive alive' : List Entity),
      (∀ c ∈ cs, WorldCall.isPopulation c = true) →
      w.systems.signatures s = none → w.calls alive cs = some (w', alive') →
      w'.Subscribers s = w.Subscribers s := by
  induction cs with
  | nil =>
    intro w w' alive alive' _ _ h
    simp only [world.calls, Option.some.injEq, Prod.mk.injEq] at h
    obtain ⟨rfl, -⟩ := h
    rfl
  | cons c cs ih =>
    intro w w' alive alive' hpop hs h
    have hc := hpop c (List.mem_cons_self _ _)
    have hcs : ∀ d ∈ cs, WorldCall.isPopulation d = true :=
      fun d hd => hpop d (List.mem_cons_of_mem _ hd)
    simp only [world.calls] at h
    cases hcall : w.call alive c with
    | none => simp [hcall] at h
    | some r =>
      obtain ⟨w1, a1⟩ := r
      simp only [hcall] at h
      cases c with
      | CreateEntity =>
        simp only [world.call] at hcall
        cases hce : w.CreateEntity with
        | none => simp [hce] at hcall
        | some r =>
          obtain ⟨w2, x⟩ := r
          simp only [hce, Option.some.injEq, Prod.mk.injEq] at hcall
          obtain ⟨rfl, -⟩ := hcall
          obtain ⟨-, hsys, -, -, -⟩ := create_spec w w2 x hce
          rw [ih w2 w' a1 alive' hcs (by rw [hsys]; exact hs) h]
          simp [world.Subscribers, world.System, hsys]
      | AttachComponent entity component =>
        simp only [world.call] at hcall
        cases hat : w.AttachComponent entity component with
        | none => simp [hat] at hcall
        | some w2 =>
          simp only [hat, Option.some.injEq, Prod.mk.injEq] at hcall
          obtain ⟨rfl, -⟩ := hcall
          obtain ⟨-, -, -, -, -, hsys⟩ := attach_spec w w2 entity component hat
          rw [ih w2 w' a1 alive' hcs (by rw [hsys]; exact hs) h]
          simp only [world.Subscribers, world.System, systemManager.Read, hsys,
            systemManager.Change]
          cases w.systems.systems s with
          | none => rfl
          | some system =>
            simp [systemManager.changeOne, hs, SystemAccess.Unsubscribe]
      | RegisterComponent name => simp [WorldCall.isPopulation] at hc
      | RegisterSystem system components => simp [WorldCall.isPopulation] at hc
      | SignEntity entity components => simp [WorldCall.isPopulation] at hc
      | Destroy entity => simp [WorldCall.isPopulation] at hc

/-- C19, as stated, fails: `"physics"` is first registered requiring `"position"`, then a
new system is registered under the same name with no component names.  No signature is
stored for the second registration, so the required signature of the first one stays in
force, and entity `0` with a `"position"` component is subscribed to the new system. -/
theorem system_without_components_inherits_signature :
    (CreateWorld.calls []
      [WorldCall.RegisterComponent "position",
        WorldCall.RegisterSystem (System.fresh "physics") ["position"],
        WorldCall.RegisterSystem (System.fresh "physics") [],
        WorldCall.CreateEntity,
        WorldCall.AttachComponent 0 ⟨"position", 1⟩]).bind
      (fun r => r.1.Subscribers "physics") = some [0] := by
  decide!

/-- C19, amended: a system without subscribers that is registered with no component
names, under a name `s` to which no earlier `RegisterSystem` call with component names
was made, matches no entity: after any sequence of `CreateEntity` and `AttachComponent`
calls that runs without a panic its subscriber list is empty. -/
theorem system_without_components_matches_nothing (before : List WorldCall) (s : String)
    (cs : List WorldCall) (w : world) (alive : List Entity)
    (hbefore : ∀ c ∈ before, WorldCall.leavesUnsigned s c = true)
    (hcs : ∀ c ∈ cs, WorldCall.isPopulation c = true)
    (hrun : CreateWorld.calls []
      (before ++ WorldCall.RegisterSystem (System.fresh s) [] :: cs) = some (w, alive)) :
    w.Subscribers s = some [] := by
  rw [world_calls_append] at hrun
  cases h1 : CreateWorld.calls [] before with
  | none => simp [h1] at hrun
  | some r1 =>
    obtain ⟨w1, a1⟩ := r1
    simp only [h1, Option.some_bind, world.calls, world.call] at hrun
    have hs1 : w1.systems.signatures s = none :=
      calls_keep_unsigned before s _ _ _ _ hbefore rfl h1
    have hs2 : (w1.RegisterSystem (System.fresh s) []).systems.signatures s = none := by
      simpa [world.RegisterSystem, systemManager.Register] using hs1
    rw [population_keeps_unsigned_subscribers cs s _ w a1 alive hcs hs2 hrun]
    simp [world.Subscribers, world.System, systemManager.Read, world.RegisterSystem,
      systemManager.Register, mapSet, System.fresh, SystemAccess.Entities]

/-- A run of C19's amended statement: `"idle"` is registered with no component names
after another system, and two entities get components. -/
theorem system_without_components_matches_nothing_witness :
    ∃ w alive,
      CreateWorld.calls []
        ([WorldCall.RegisterComponent "position",
          WorldCall.RegisterSystem (System.fresh "physics") ["position"]] ++
          WorldCall.RegisterSystem (System.fresh "idle") [] ::
            [WorldCall.CreateEntity, WorldCall.AttachComponent 0 ⟨"position", 1⟩,
              WorldCall.CreateEntity, WorldCall.AttachComponent 1 ⟨"position", 2⟩]) =
        some (w, alive) ∧
      w.Subscribers "idle" = some [] := by
  have f0 : (CreateWorld.calls []
        ([WorldCall.RegisterComponent "position",
          WorldCall.RegisterSystem (System.fresh "physics") ["position"]] ++
          WorldCall.RegisterSystem (System.fresh "idle") [] ::
            [WorldCall.CreateEntity, WorldCall.AttachComponent 0 ⟨"position", 1⟩,
              WorldCall.CreateEntity, WorldCall.AttachComponent 1 ⟨"position", 2⟩])).isSome =
      true := by decide!
  cases h : CreateWorld.calls []
        ([WorldCall.RegisterComponent "position",
          WorldCall.RegisterSystem (System.fresh "physics") ["position"]] ++
          WorldCall.RegisterSystem (System.fresh "idle") [] ::
            [WorldCall.CreateEntity, WorldCall.AttachComponent 0 ⟨"position", 1⟩,
              WorldCall.CreateEntity, WorldCall.AttachComponent 1 ⟨"position", 2⟩]) with
  | none => rw [h] at f0; exact absurd f0 (by decide)
  | some r =>
    exact ⟨r.1, r.2, rfl,
      system_without_components_matches_nothing
        [WorldCall.RegisterComponent "position",
          WorldCall.RegisterSystem (System.fresh "physics") ["position"]] "idle"
        [WorldCall.CreateEntity, WorldCall.AttachComponent 0 ⟨"position", 1⟩,
          WorldCall.CreateEntity, WorldCall.AttachComponent 1 ⟨"position", 2⟩] r.1 r.2
        (by decide) (by decide) h⟩

/-! ## Drawing (`engine/graphics.go`) -/

/-- C23, evaluated on the code: in a window of 2 by 2 pixels (a buffer of 16 bytes)
`Draw(0, 1, colour)` writes the three bytes at offsets 8, 9, 10, but `Draw(1, 1, colour)`
for the last pixel writes nothing: its offset `12` equals `len(pixels) - 4`, and the
guard `index < bit` is strict. -/
theorem draw_skips_the_last_pixel :
    Pixels 2 2 = some (List.replicate 16 0) ∧
    Draw 2 (List.replicate 16 0) 0 1 ⟨255, 254, 253⟩ =
      some (List.replicate 8 0 ++ [255, 254, 253] ++ List.replicate 5 0) ∧
    Draw 2 (List.replicate 16 0) 1 1 ⟨255, 254, 253⟩ = some (List.replicate 16 0) := by
  decide

/-- C24, evaluated on the code: from the origin `(10, 0)` to the destination `(0, 10)`
the first loop of `Line` runs (origin to the right); it subtracts the quotient where the
second loop adds it, so the plotted pixels are `(10, 0), (9, -1), ..., (1, -9)`: their `y`
moves away from the destination and leaves the interval `[0, 10]`.  The same segment
taken from `(0, 10)` to `(10, 0)` is plotted inside the interval. -/
theorem line_leftward_is_mirrored :
    Line.plots 10 0 0 10 =
      some [(10, 0), (9, -1), (8, -2), (7, -3), (6, -4), (5, -5), (4, -6), (3, -7),
        (2, -8), (1, -9)] ∧
    Line.plots 0 10 10 0 =
      some [(0, 10), (1, 9), (2, 8), (3, 7), (4, 6), (5, 5), (6, 4), (7, 3), (8, 2),
        (9, 1)] := by
  decide

/-! ## Insertion after a removal -/

/-- C25, evaluated on the code: entities `0` and `1` hold `"transform"` in slots `0` and
`1`.  `Destroy(0)` deletes slot `0` and lowers the size to `1` without compacting, so
the insert for the new entity `2` takes slot `1`: `Component(1, "transform")` changes
from the component of entity `1` to the component just attached to entity `2`. -/
theorem insert_after_destroy_overwrites_other_entity :
    (CreateWorld.calls []
      [WorldCall.RegisterComponent "transform",
        WorldCall.CreateEntity, WorldCall.AttachComponent 0 ⟨"transform", 10⟩,
        WorldCall.CreateEntity, WorldCall.AttachComponent 1 ⟨"transform", 11⟩,
        WorldCall.Destroy 0, WorldCall.CreateEntity]).bind
      (fun r => r.1.Component 1 "transform") = some (some ⟨"transform", 11⟩) ∧
    (CreateWorld.calls []
      [WorldCall.RegisterComponent "transform",
        WorldCall.CreateEntity, WorldCall.AttachComponent 0 ⟨"transform", 10⟩,
        WorldCall.CreateEntity, WorldCall.AttachComponent 1 ⟨"transform", 11⟩,
        WorldCall.Destroy 0, WorldCall.CreateEntity,
        WorldCall.AttachComponent 2 ⟨"transform", 12⟩]).bind
      (fun r => r.1.Component 1 "transform") = some (some ⟨"transform", 12⟩) := by
  constructor <;> decide!

/-! ## The balance of the pool -/

theorem calls_of_withinLimits (cs : List EntityCall) :
    ∀ (m : entityManager) (alive : List Entity), m.withinLimits alive cs = true →
      ∃ m' alive', m.calls alive cs = some (m', alive') := by
  induction cs with
  | nil => intro m alive _; exact ⟨m, alive, rfl⟩
  | cons c cs ih =>
    intro m alive h
    simp only [entityManager.withinLimits, Bool.and_eq_true] at h
    obtain ⟨hc, hrest⟩ := h
    have hcall : (m.call alive c).isSome = true := by
      cases c with
      | Create =>
        simp only [Bool.not_eq_true', List.isEmpty_eq_false] at hc
        cases hav : m.available with
        | nil => exact absurd hav hc
        | cons next rest => simp [entityManager.call, entityManager.Create, hav]
      | Destroy entity =>
        have hr : inRange entity = true := hc
        simp [entityManager.call, entityManager.Destroy, hr]
    cases hr : m.call alive c with
    | none => simp [hr] at hcall
    | some r =>
    obtain ⟨m1, a1⟩ := r
    simp only [hr] at hrest
    obtain ⟨m', alive', h'⟩ := ih m1 a1 hrest
    exact ⟨m', alive', by simp only [entityManager.calls, hr, h']⟩

/-- C26: for every sequence of `Create` and `Destroy` calls from `CreateEntityManager()`
in which `Create` is only called on a non-empty pool and `Destroy` only with handles in
`[0, MaxEntities)`, the run returns and `Living() + len(available) = MaxEntities` holds
after it (the sequence being any, so after every call), so that `Living()` is negative
exactly when the pool holds more than `MaxEntities` handles. -/
theorem living_plus_pool_is_maxEntities (cs : List EntityCall)
    (hlimits : CreateEntityManager.withinLimits [] cs = true) :
    ∃ m alive, CreateEntityManager.calls [] cs = some (m, alive) ∧
      m.Living + (m.available.length : Int) = (MaxEntities : Int) ∧
      (m.Living < 0 ↔ MaxEntities < m.available.length) := by
  obtain ⟨m, alive, hrun⟩ := calls_of_withinLimits cs _ _ hlimits
  have hb := calls_balance cs _ _ _ _ hrun
  have hl := pool_length
  have h0 : CreateEntityManager.living = 0 := rfl
  have hsum : m.Living + (m.available.length : Int) = (MaxEntities : Int) := by
    unfold entityManager.Living
    omega
  refine ⟨m, alive, hrun, hsum, ?_⟩
  constructor
  · intro h
    have : (MaxEntities : Int) < (m.available.length : Int) := by omega
    exact_mod_cast this
  · intro h
    have : (MaxEntities : Int) < (m.available.length : Int) := by exact_mod_cast h
    omega

/-- A run of C26: `Destroy(0)` twice after one `Create` leaves `Living()` at `-1` with
10001 handles in the pool. -/
theorem living_plus_pool_is_maxEntities_witness :
    ∃ m alive,
      CreateEntityManager.calls []
        [EntityCall.Create, EntityCall.Destroy 0, EntityCall.Destroy 0] =
        some (m, alive) ∧
      m.Living + (m.available.length : Int) = (MaxEntities : Int) ∧
      (m.Living < 0 ↔ MaxEntities < m.available.length) :=
  living_plus_pool_is_maxEntities
    [EntityCall.Create, EntityCall.Destroy 0, EntityCall.Destroy 0] (by decide!)

/-! ## The order of the subscriber list -/

theorem changeOne_entities (manager : systemManager) (entity : Entity) (signature : BitSet)
    (name : String) (system : System) :
    ((entity ∉ system.entities ∧
        ∃ required, manager.signatures name = some required ∧ required ⊆ signature) ∧
      (manager.changeOne entity signature name system).entities =
        system.entities ++ [entity]) ∨
    (¬ (entity ∉ system.entities ∧
        ∃ required, manager.signatures name = some required ∧ required ⊆ signature) ∧
      (manager.changeOne entity signature name system).entities = system.entities) := by
  unfold systemManager.changeOne
  cases hreq : manager.signatures name with
  | none =>
    right
    exact ⟨fun h => by simp at h, rfl⟩
  | some required =>
    by_cases hsub : entity ∈ system.entities
    · right
      have h1 : system.Subscribed entity = true := (subscribed_iff _ _).mpr hsub
      exact ⟨fun h => h.1 hsub, by simp [h1, SystemAccess.Unsubscribe]⟩
    · have h1 : system.Subscribed entity = false := by
        cases h : system.Subscribed entity with
        | false => rfl
        | true => exact absurd ((subscribed_iff _ _).mp h) hsub
      by_cases hsup : required ⊆ signature
      · left
        have h2 : signature.IsSuperSet required = true := (isSuperSet_iff _ _).mpr hsup
        exact ⟨⟨hsub, required, rfl, hsup⟩, by simp [h1, h2, SystemAccess.Subscribe]⟩
      · right
        have h2 : signature.IsSuperSet required = false := by
          cases h : signature.IsSuperSet required with
          | false => rfl
          | true => exact absurd ((isSuperSet_iff _ _).mp h) hsup
        refine ⟨?_, by simp [h1, h2, SystemAccess.Unsubscribe]⟩
        rintro ⟨-, r, hr, hr'⟩
        cases hr
        exact hsup hr'

theorem changeAll_prefix (changes : List (Entity × BitSet)) :
    ∀ (manager : systemManager) (name : String) (system : System),
      manager.systems name = some system →
      ∃ system', (manager.ChangeAll changes).systems name = some system' ∧
        List.IsPrefix system.entities system'.entities ∧
        (system.entities.Nodup → system'.entities.Nodup) := by
  induction changes with
  | nil =>
    intro manager name system h
    exact ⟨system, h, List.prefix_refl _, id⟩
  | cons change changes ih =>
    intro manager name system h
    have hstep : (manager.Change change.1 change.2).systems name =
        some (manager.changeOne change.1 change.2 name system) := by
      simp [systemManager.Change, h]
    obtain ⟨system', h1, h2, h3⟩ := ih _ name _ hstep
    refine ⟨system', h1, ?_, ?_⟩
    · refine List.IsPrefix.trans ?_ h2
      rcases changeOne_entities manager change.1 change.2 name system with ⟨-, he⟩ | ⟨-, he⟩
      · rw [he]; exact List.prefix_append _ _
      · rw [he]
    · intro hnd
      exact h3 (nodup_changeOne _ _ _ _ _ hnd)

/-- C22: `Change(entity, signature)` leaves the subscriber list of a registered system as
it is, or, when the entity is not subscribed and the signature is a superset of the
system's required signature, appends the entity at its end.  Through any sequence of
`Change` calls the earlier list stays a prefix of the later one, in the same order, and
a list without duplicates stays without duplicates. -/
theorem change_appends_new_subscribers_at_the_end (manager : systemManager) (name : String)
    (system : System) (hsystem : manager.systems name = some system) :
    (∀ entity signature,
      ∃ system', (manager.Change entity signature).systems name = some system' ∧
        (((entity ∉ system.Entities ∧
            ∃ required, manager.signatures name = some required ∧ required ⊆ signature) ∧
          system'.Entities = system.Entities ++ [entity]) ∨
         (¬ (entity ∉ system.Entities ∧
            ∃ required, manager.signatures name = some required ∧ required ⊆ signature) ∧
          system'.Entities = system.Entities))) ∧
    (∀ changes,
      ∃ system', (manager.ChangeAll changes).systems name = some system' ∧
        List.IsPrefix system.Entities system'.Entities ∧
        (system.Entities.Nodup → system'.Entities.Nodup)) := by
  constructor
  · intro entity signature
    exact ⟨manager.changeOne entity signature name system,
      by simp [systemManager.Change, hsystem],
      changeOne_entities manager entity signature name system⟩
  · intro changes
    exact changeAll_prefix changes manager name system hsystem

/-- A run of C22: entity `1` and then entity `2` come to match `"physics"`, entity `3`
does not; the subscriber list is `[1, 2]`. -/
theorem change_appends_new_subscribers_at_the_end_witness :
    ((((CreateSystemManager.Register "physics" (System.fresh "physics")).Use "physics"
        (some {0})).ChangeAll [(1, {0}), (3, {1}), (2, {0, 1}), (1, {0, 1})]).systems
        "physics").map (fun s => s.Entities) = some [1, 2] ∧
    ∃ system',
      (((CreateSystemManager.Register "physics" (System.fresh "physics")).Use "physics"
        (some {0})).ChangeAll [(1, {0}), (3, {1}), (2, {0, 1}), (1, {0, 1})]).systems
        "physics" = some system' ∧
      List.IsPrefix (System.fresh "physics").Entities system'.Entities ∧
      ((System.fresh "physics").Entities.Nodup → system'.Entities.Nodup) :=
  ⟨by decide,
   (change_appends_new_subscribers_at_the_end
      ((CreateSystemManager.Register "physics" (System.fresh "physics")).Use "physics"
        (some {0})) "physics" (System.fresh "physics") rfl).2
      [(1, {0}), (3, {1}), (2, {0, 1}), (1, {0, 1})]⟩

/-! ## Names that were never registered -/

/-- C21, as stated, fails: with only `"position"` registered, `Signature("velocity")`
returns `0`, the bit index of `"position"`, and `Sign("velocity")` is the signature
`{0}`; a system registered with the component name `"velocity"` gets the required
signature `{0}` and subscribes entity `0`, which holds a `"position"` component only. -/
theorem unregistered_name_reads_as_bit_zero :
    (CreateComponentManager.Register "position").Signature "position" = 0 ∧
    (CreateComponentManager.Register "position").Signature "velocity" = 0 ∧
    (CreateComponentManager.Register "position").Sign ["velocity"] = {0} ∧
    (CreateWorld.calls []
      [WorldCall.RegisterComponent "position",
        WorldCall.RegisterSystem (System.fresh "physics") ["velocity"],
        WorldCall.CreateEntity,
        WorldCall.AttachComponent 0 ⟨"position", 1⟩]).bind
      (fun r => (r.1.systems.signatures "physics").bind
        (fun required => (r.1.Subscribers "physics").map
          (fun subscribers => (required, subscribers)))) = some ({0}, [0]) := by
  refine ⟨by decide, by decide, by decide, by decide!⟩

/-- C21, amended: `Signature` and `Sign` report no error.  For registered names,
`Signature(name)` is the bit index stored for the name, `Sign(names...)` sets exactly the
stored bit indices of the names, and `RegisterSystem` with one or more registered
component names stores for the system a required signature made of exactly these
indices. -/
theorem registered_names_sign_their_own_bits (w : world) (system : System)
    (names : List String)
    (hreg : ∀ n ∈ names, (w.components.signatures n).isSome = true)
    (hne : names ≠ []) :
    (∀ n ∈ names, w.components.signatures n = some (w.components.Signature n)) ∧
    (∀ i, i ∈ w.components.Sign names ↔ ∃ n ∈ names, w.components.signatures n = some i) ∧
    ∃ required,
      (w.RegisterSystem system names).systems.signatures system.Name = some required ∧
      ∀ i, i ∈ required ↔ ∃ n ∈ names, w.components.signatures n = some i := by
  have h1 : ∀ n ∈ names, w.components.signatures n = some (w.components.Signature n) := by
    intro n hn
    have := hreg n hn
    cases hs : w.components.signatures n with
    | none => simp [hs] at this
    | some i => simp [componentManager.Signature, hs]
  have h2 : ∀ i, i ∈ w.components.Sign names ↔
      ∃ n ∈ names, w.components.signatures n = some i := by
    intro i
    unfold componentManager.Sign
    rw [mem_foldl_set]
    simp only [BitSet.new, Finset.not_mem_empty, false_or]
    constructor
    · rintro ⟨n, hn, rfl⟩
      exact ⟨n, hn, h1 n hn⟩
    · rintro ⟨n, hn, hi⟩
      refine ⟨n, hn, ?_⟩
      have := h1 n hn
      rw [hi] at this
      exact (Option.some.inj this).symm
  refine ⟨h1, h2, w.components.Sign names, ?_, h2⟩
  have hlen : names.length > 0 := List.length_pos.mpr hne
  simp [world.RegisterSystem, hlen, systemManager.Use, systemManager.Register]

/-- A run of C21's amended statement: `"physics"` is registered with the two registered
names `"velocity"` and `"position"`. -/
theorem registered_names_sign_their_own_bits_witness :
    (∀ n ∈ ["velocity", "position"],
      ((CreateWorld.RegisterComponent "position").RegisterComponent
          "velocity").components.signatures n =
        some (((CreateWorld.RegisterComponent "position").RegisterComponent
          "velocity").components.Signature n)) ∧
    (∀ i, i ∈ ((CreateWorld.RegisterComponent "position").RegisterComponent
          "velocity").components.Sign ["velocity", "position"] ↔
      ∃ n ∈ ["velocity", "position"],
        ((CreateWorld.RegisterComponent "position").RegisterComponent
          "velocity").components.signatures n = some i) ∧
    ∃ required,
      ((((CreateWorld.RegisterComponent "position").RegisterComponent
          "velocity").RegisterSystem (System.fresh "physics")
            ["velocity", "position"]).systems.signatures
        (System.fresh "physics").Name = some required) ∧
      ∀ i, i ∈ required ↔ ∃ n ∈ ["velocity", "position"],
        ((CreateWorld.RegisterComponent "position").RegisterComponent
          "velocity").components.signatures n = some i :=
  registered_names_sign_their_own_bits
    ((CreateWorld.RegisterComponent "position").RegisterComponent "velocity")
    (System.fresh "physics") ["velocity", "position"] (by decide) (by decide)

end ecs
